import Mathlib

/-!
# shore-kits: the DORA core (`dora/common.h`, `dora/tpcc/dora_tpcc_xct.cpp`)

A shallow embedding of the lock modes and the lock compatibility matrix of
`include/dora/common.h`, of the DORA TPC-C coordinators of
`src/dora/tpcc/dora_tpcc_xct.cpp`, and of the `CHECK_MIDWAY_RVP_ABORTED` macro;
of the random values of `src/workload/tpcc/dbgen/tpcc_rnd.cpp`, the aligned
allocation of `src/util/alignedops.cpp`, the PAYMENT transaction of
`src/stages/tpcc/payment_baseline.cpp`, the DELIVERY transaction and the
queried factor of `src/stages/tpcc/shore/shore_tpcc_env.cpp`, followed by the
properties proved about them.
-/

/-- The return codes `w_rc_t` that occur: `RCOK`, `RC(de_PROBLEM_ENQUEUE)`, or
another error, identified by its number (`err_num()`). -/
inductive w_rc_t
  | RCOK
  | de_PROBLEM_ENQUEUE
  | sm_error (e : Nat)
  deriving DecidableEq, Repr

/-- The method `w_rc_t::is_error()`: every code but `RCOK` is an error. -/
def w_rc_t.is_error : w_rc_t → Bool
  | .RCOK => false
  | _ => true

namespace dora

/-! ## `include/dora/common.h`: lock modes and compatibility matrix -/

/-- The lock modes of `enum eDoraLockMode`. `DL_CC_MODES` is the number of
modes and is "not an actual lock mode", so it is a constant below. -/
inductive eDoraLockMode
  | DL_CC_NOLOCK
  | DL_CC_SHARED
  | DL_CC_EXCL
  deriving DecidableEq, Repr

/-- The enumerator values of `eDoraLockMode`. -/
def eDoraLockMode.val : eDoraLockMode → Nat
  | .DL_CC_NOLOCK => 0
  | .DL_CC_SHARED => 1
  | .DL_CC_EXCL => 2

/-- The enumerator `DL_CC_MODES = 3`. -/
def DL_CC_MODES : Nat := 3

/-- The array `DoraLockModeArray[DL_CC_MODES]`. -/
def DoraLockModeArray : List eDoraLockMode :=
  [.DL_CC_NOLOCK, .DL_CC_SHARED, .DL_CC_EXCL]

/-- The array `DoraLockModeMatrix[DL_CC_MODES][DL_CC_MODES]`, row by row. -/
def DoraLockModeMatrix : List (List Int) :=
  [ [1, 1, 1],
    [1, 1, 0],
    [1, 0, 0] ]

/-- The C expression `DoraLockModeMatrix[held][requested]`. -/
def DoraLockModeMatrix_at (held requested : eDoraLockMode) : Int :=
  (DoraLockModeMatrix.getD held.val []).getD requested.val 0

/-- The compatibility table of the specification (section 3), written from its
words: rows are the held mode, columns the requested mode. -/
def specCompatible : eDoraLockMode → eDoraLockMode → Bool
  | .DL_CC_NOLOCK, .DL_CC_NOLOCK => true
  | .DL_CC_NOLOCK, .DL_CC_SHARED => true
  | .DL_CC_NOLOCK, .DL_CC_EXCL => true
  | .DL_CC_SHARED, .DL_CC_NOLOCK => true
  | .DL_CC_SHARED, .DL_CC_SHARED => true
  | .DL_CC_SHARED, .DL_CC_EXCL => false
  | .DL_CC_EXCL, .DL_CC_NOLOCK => true
  | .DL_CC_EXCL, .DL_CC_SHARED => false
  | .DL_CC_EXCL, .DL_CC_EXCL => false

/-- The decisions of `enum eActionDecision`. -/
inductive eActionDecision
  | AD_UNDECIDED
  | AD_ABORT
  | AD_DEADLOCK
  | AD_COMMIT
  | AD_DIE
  | AD_PROPAGATE
  deriving DecidableEq, Repr

/-- The enumerator values of `eActionDecision`. -/
def eActionDecision.val : eActionDecision → Nat
  | .AD_UNDECIDED => 0x1
  | .AD_ABORT => 0x2
  | .AD_DEADLOCK => 0x3
  | .AD_COMMIT => 0x4
  | .AD_DIE => 0x5
  | .AD_PROPAGATE => 0x6

/-! ## `include/dora/common.h`: `CHECK_MIDWAY_RVP_ABORTED` -/

/-- The calls a midway RVP makes from its `run()`: the four calls of
`CHECK_MIDWAY_RVP_ABORTED` on the next RVP (`run` is logged with the aborted
mark the next RVP carries when it is called), and the operations of the rest
of `run()`, which generate and enqueue the actions of the next wave. `TRACE`
output is not logged. -/
inductive RvpCall
  | abort
  | run (aborted : Bool)
  | notify
  | giveback
  | next_wave (op : Nat)
  deriving DecidableEq, Repr

/-- The macro `CHECK_MIDWAY_RVP_ABORTED(nextrvp)` inside the `run()` of a midway
RVP. `isAborted` is the value of `isAborted()`, `aborted0` the aborted mark of
the next RVP before the macro, `run` the result of `nextrvp->run()` as a
function of that mark; `nextrvp->abort()` sets the mark. The result is the
calls made and, when the macro returns from `run()`, the code it returns. -/
def CHECK_MIDWAY_RVP_ABORTED (isAborted : Bool) (aborted0 : Bool) (run : Bool → w_rc_t) :
    List RvpCall × Option w_rc_t :=
  if isAborted then
    let aborted := aborted0 || true
    let e := run aborted
    ([.abort, .run aborted, .notify, .giveback], some e)
  else
    ([], none)

/-- The `run()` of a midway RVP that starts with `CHECK_MIDWAY_RVP_ABORTED`:
the macro, then, unless the macro returned, the rest of the body, given by
its calls and its return code. -/
def midway_run (isAborted : Bool) (aborted0 : Bool) (run : Bool → w_rc_t)
    (rest : List RvpCall × w_rc_t) : List RvpCall × w_rc_t :=
  match CHECK_MIDWAY_RVP_ABORTED isAborted aborted0 run with
  | (calls, some e) => (calls, e)
  | (calls, none) => (calls ++ rest.1, rest.2)

/-! ## The rendezvous point, from the specification -/

/-- Modelled from the spec: the class `rvp_t` (`dora/rvp.h`), which is not among
the sources at hand. Section 4.2: an RVP counts the reports it still expects
in `remaining` and the registered actions in `total`, aggregates a decision,
and runs its finalize logic from the report that brings `remaining` to zero.
`finalized_by` lists, oldest first, the reporters whose report ran the
finalize logic. -/
structure rvp_t where
  remaining : Int
  total : Int
  decision : eActionDecision
  actions : List Nat
  finalized_by : List Nat
  deriving DecidableEq, Repr

/-- Modelled from the spec: a newly created RVP that expects no report yet and
whose aggregated decision is "initially Undecided". -/
def rvp_t.created : rvp_t :=
  { remaining := 0, total := 0, decision := .AD_UNDECIDED, actions := [], finalized_by := [] }

/-- Modelled from the spec: "`add_action(action)`: registers one more expected
report; increments `remaining` and `total`; transfers logical ownership of
the action into the RVP's action list". -/
def rvp_t.add_action (r : rvp_t) (action : Nat) : rvp_t :=
  { r with remaining := r.remaining + 1, total := r.total + 1, actions := r.actions ++ [action] }

/-- Modelled from the spec: "`report(decision)`: updates aggregated decision
(first Abort/Deadlock reported poisons the aggregate permanently; later
reports are ignored for aggregation purposes but still counted toward
`remaining`); if this call brought `remaining` to zero, this call becomes the
sole finalizer". The aggregate "becomes Commit once the count reaches zero
with no bad reports". -/
def rvp_t.report (r : rvp_t) (action : Nat) (d : eActionDecision) : rvp_t :=
  let poisoned := r.decision = .AD_ABORT ∨ r.decision = .AD_DEADLOCK
  let decision1 :=
    if poisoned then r.decision
    else if d = .AD_ABORT ∨ d = .AD_DEADLOCK then d
    else r.decision
  let remaining1 := r.remaining - 1
  if remaining1 = 0 then
    { r with
      remaining := remaining1,
      decision := if decision1 = .AD_UNDECIDED then .AD_COMMIT else decision1,
      finalized_by := r.finalized_by ++ [action] }
  else
    { r with remaining := remaining1, decision := decision1 }

/-- The RVP of a wave after `add_action` for each of its actions and then the
reports in `order`, each a reporting action with its decision. -/
def rvp_t.after_wave (wave : List (Nat × eActionDecision))
    (order : List (Nat × eActionDecision)) : rvp_t :=
  order.foldl (fun r x => r.report x.1 x.2)
    (wave.foldl (fun r x => r.add_action x.1) rvp_t.created)

end dora

/-! ## `src/dora/tpcc/dora_tpcc_xct.cpp`: the DORA TPC-C coordinators

The coordinators are embedded as programs over an explicit world: the log of
the operations performed so far and the scoped critical sections that are
still active. Everything the coordinators call that lives outside this file
of the repository (the storage manager, the action getters, the partition
`enqueue`) is a parameter of the environment `Env`. -/

namespace tpcc

/-- The partitioned tables of the DORA environment reached through
`_g_dora->whs()`, `_g_dora->dis()` and `_g_dora->cus()`. -/
inductive Table
  | whs
  | dis
  | cus
  deriving DecidableEq, Repr

/-- The enqueue lock `_g_dora->tbl(part)->_enqueue_lock` of one partition. -/
structure Lock where
  table : Table
  part : Int
  deriving DecidableEq, Repr

/-- The action objects handed out by the `_g_dora->get_..._action()` getters. -/
inductive Action
  | pay_upd_cust
  | pay_upd_dist
  | pay_upd_wh
  | upd_cust_mb
  | upd_wh_mb
  deriving DecidableEq, Repr

/-- The rendezvous points the coordinators create. -/
inductive Rvp
  | midway_pay_rvp
  | final_mb_rvp
  deriving DecidableEq, Repr

/-- The operations a coordinator performs, in the order of the log. `TRACE`
output is diagnostic only and is not logged. -/
inductive Event
  | begin_xct
  | new_rvp (r : Rvp)
  | get_action (a : Action)
  | set_input (a : Action) (r : Rvp)
  | set_m_rvp (a : Action) (r : Rvp)
  | add_action (r : Rvp) (a : Action)
  | detach_xct
  | acquire (l : Lock)
  | release (l : Lock)
  | enqueue (t : Table) (part : Int) (a : Action) (rc : Int)
  | borrow (a : Action)
  | range_act_set (a : Action) (r : Rvp)
  deriving DecidableEq, Repr

/-- How a run of a coordinator ends: it returns a code to its caller, an
`assert` aborts the process, or (asserts compiled out) a null pointer is
dereferenced. -/
inductive Exit
  | returned (rc : w_rc_t)
  | assertion_failed
  | null_dereference
  deriving DecidableEq, Repr

/-- What the coordinators take from their surroundings. -/
structure Env where
  /-- Whether `assert` is compiled in (`NDEBUG` not defined). -/
  asserts : Bool
  /-- Whether the global `_g_dora` is non-null. -/
  g_dora : Bool
  /-- The result of `_pssm->begin_xct(atid)`: `none` is success. -/
  begin_xct_error : Option Nat
  /-- Whether `smthread_t::me()->xct()` is non-null. -/
  xct : Bool
  /-- Whether the getter of an action returns a non-null object. -/
  get_action : Action → Bool
  /-- The value returned by `tbl()->enqueue(action, part)`; non-zero is failure. -/
  enqueue : Table → Int → Action → Int

/-- The world of a running coordinator: the log of operations, oldest first,
and the locks of the scoped `CRITICAL_SECTION` objects that are still active,
most recently declared first. -/
structure World where
  log : List Event
  cs : List Lock
  deriving DecidableEq, Repr

/-- One statement: it either continues with a value or ends the run. -/
inductive Step (α : Type)
  | next (a : α)
  | stop (e : Exit)

/-- Programs of a coordinator. -/
def Coord (α : Type) : Type := World → Step α × World

/-- Sequencing of statements. -/
def Coord.bind {α β : Type} (m : Coord α) (f : α → Coord β) : Coord β :=
  fun w => match m w with
    | (.next a, w1) => f a w1
    | (.stop e, w1) => (.stop e, w1)

instance : Monad Coord where
  pure a := fun w => (.next a, w)
  bind := Coord.bind

/-- Append an operation to the log. -/
def emit (e : Event) : Coord Unit :=
  fun w => (.next (), { w with log := w.log ++ [e] })

/-- End the run. -/
def halt {α : Type} (e : Exit) : Coord α :=
  fun w => (.stop e, w)

/-- The C `assert(c)`: aborts when asserts are compiled in and `c` is false. -/
def c_assert (env : Env) (c : Bool) : Coord Unit :=
  if env.asserts && !c then halt .assertion_failed else pure ()

/-- Use of a pointer through `->`: a null pointer ends the run. -/
def deref (nonnull : Bool) : Coord Unit :=
  if nonnull then pure () else halt .null_dereference

/-- The release operations of the active critical sections, most recently
declared first (the order in which the destructors of the scoped objects run). -/
def releases (cs : List Lock) : List Event :=
  cs.map Event.release

/-- `CRITICAL_SECTION(name, lock)`: declare a scoped object that acquires the
lock and holds it until `name.exit()` or the end of the scope. -/
def CRITICAL_SECTION (l : Lock) : Coord Unit :=
  fun w => (.next (), { log := w.log ++ [.acquire l], cs := l :: w.cs })

/-- `name.exit()`: release the lock of a critical section early; its
destructor then does nothing. -/
def cs_exit (l : Lock) : Coord Unit :=
  fun w => (.next (), { log := w.log ++ [.release l], cs := w.cs.erase l })

/-- Leaving the scope of the critical sections: the destructors of the still
active ones release their locks. -/
def leave_scope : Coord Unit :=
  fun w => (.next (), { log := w.log ++ releases w.cs, cs := [] })

/-- `return (rc);`: leave the scope and return to the caller. -/
def c_return {α : Type} (rc : w_rc_t) : Coord α :=
  fun w => (.stop (.returned rc), { log := w.log ++ releases w.cs, cs := [] })

/-- `W_DO(_pssm->begin_xct(atid))`: returns the error to the caller at once
when the storage manager reports one. -/
def W_DO_begin_xct (env : Env) : Coord Unit :=
  match env.begin_xct_error with
  | none => emit .begin_xct
  | some e => c_return (.sm_error e)

/-- `tbl()->enqueue(action, part)`: logs the call with its return value and
yields that value. -/
def enqueue (env : Env) (t : Table) (part : Int) (a : Action) : Coord Int :=
  fun w => (.next (env.enqueue t part a),
    { w with log := w.log ++ [.enqueue t part a (env.enqueue t part a)] })

/-- The input of the Payment transaction, as far as the coordinator reads it. -/
structure payment_input_t where
  _home_wh_id : Int

/-- `ShoreTPCCEnv::dora_payment(xct_id, apin, atrt)`. -/
def dora_payment (env : Env) (apin : payment_input_t) : Coord Unit := do
  c_assert env env.g_dora
  -- 1. Initiate transaction
  W_DO_begin_xct env
  c_assert env env.xct
  -- 2. Setup the next RVP
  emit (.new_rvp .midway_pay_rvp)
  c_assert env true
  -- 3. Generate the actions
  deref env.g_dora
  emit (.get_action .pay_upd_cust)
  c_assert env (env.get_action .pay_upd_cust)
  deref (env.get_action .pay_upd_cust)
  emit (.set_input .pay_upd_cust .midway_pay_rvp)
  emit (.set_m_rvp .pay_upd_cust .midway_pay_rvp)
  emit (.add_action .midway_pay_rvp .pay_upd_cust)
  emit (.get_action .pay_upd_dist)
  c_assert env (env.get_action .pay_upd_dist)
  deref (env.get_action .pay_upd_dist)
  emit (.set_input .pay_upd_dist .midway_pay_rvp)
  emit (.set_m_rvp .pay_upd_dist .midway_pay_rvp)
  emit (.add_action .midway_pay_rvp .pay_upd_dist)
  emit (.get_action .pay_upd_wh)
  c_assert env (env.get_action .pay_upd_wh)
  deref (env.get_action .pay_upd_wh)
  emit (.set_input .pay_upd_wh .midway_pay_rvp)
  emit (.set_m_rvp .pay_upd_wh .midway_pay_rvp)
  emit (.add_action .midway_pay_rvp .pay_upd_wh)
  -- 4. Detatch self from xct
  emit .detach_xct
  -- 5. Enqueue
  let mypartition : Int := apin._home_wh_id - 1
  -- WH_PART_CS
  CRITICAL_SECTION ⟨.whs, mypartition⟩
  if (← enqueue env .whs mypartition .pay_upd_wh) ≠ 0 then
    c_assert env false
    c_return .de_PROBLEM_ENQUEUE
  -- DIS_PART_CS
  CRITICAL_SECTION ⟨.dis, mypartition⟩
  cs_exit ⟨.whs, mypartition⟩
  if (← enqueue env .dis mypartition .pay_upd_dist) ≠ 0 then
    c_assert env false
    c_return .de_PROBLEM_ENQUEUE
  -- CUS_PART_CS
  CRITICAL_SECTION ⟨.cus, mypartition⟩
  cs_exit ⟨.dis, mypartition⟩
  if (← enqueue env .cus mypartition .pay_upd_cust) ≠ 0 then
    c_assert env false
    c_return .de_PROBLEM_ENQUEUE
  leave_scope
  c_return .RCOK

/-- `ShoreTPCCEnv::dora_mbench_cust(xct_id, atrt, whid)`. -/
def dora_mbench_cust (env : Env) (whid : Int) : Coord Unit := do
  c_assert env env.g_dora
  -- 1. Initiate transaction
  W_DO_begin_xct env
  c_assert env env.xct
  -- 2. Setup the final RVP
  emit (.new_rvp .final_mb_rvp)
  c_assert env true
  -- 3. Generate the actions
  deref env.g_dora
  emit (.get_action .upd_cust_mb)
  c_assert env (env.get_action .upd_cust_mb)
  deref (env.get_action .upd_cust_mb)
  emit (.set_input .upd_cust_mb .final_mb_rvp)
  emit (.add_action .final_mb_rvp .upd_cust_mb)
  -- 4. Detatch self from xct
  emit .detach_xct
  -- 5. Enqueue
  let mypartition : Int := whid - 1
  -- CUS_PART_CS
  CRITICAL_SECTION ⟨.cus, mypartition⟩
  if (← enqueue env .cus mypartition .upd_cust_mb) ≠ 0 then
    c_assert env false
    c_return .de_PROBLEM_ENQUEUE
  leave_scope
  c_return .RCOK

/-- `ShoreTPCCEnv::dora_mbench_wh(xct_id, atrt, whid)`. -/
def dora_mbench_wh (env : Env) (whid : Int) : Coord Unit := do
  c_assert env env.g_dora
  -- 1. Initiate transaction
  W_DO_begin_xct env
  c_assert env env.xct
  -- 2. Setup the final RVP
  emit (.new_rvp .final_mb_rvp)
  c_assert env true
  -- 3. Generate the actions
  deref env.g_dora
  emit (.get_action .upd_wh_mb)
  c_assert env (env.get_action .upd_wh_mb)
  deref (env.get_action .upd_wh_mb)
  emit (.set_input .upd_wh_mb .final_mb_rvp)
  emit (.add_action .final_mb_rvp .upd_wh_mb)
  -- 4. Detatch self from xct
  emit .detach_xct
  -- 5. Enqueue
  let mypartition : Int := whid - 1
  -- WH_PART_CS
  CRITICAL_SECTION ⟨.whs, mypartition⟩
  if (← enqueue env .whs mypartition .upd_wh_mb) ≠ 0 then
    c_assert env false
    c_return .de_PROBLEM_ENQUEUE
  leave_scope
  c_return .RCOK

/-- The empty world a coordinator starts in. -/
def World.init : World := { log := [], cs := [] }

/-- The exit of a run; a program that falls off its end returns `RCOK`. -/
def exitOf {α : Type} (r : Step α × World) : Exit :=
  match r.1 with
  | .next _ => .returned .RCOK
  | .stop e => e

/-- The log of a complete run of `dora_payment`. -/
def payment_log (env : Env) (apin : payment_input_t) : List Event :=
  (dora_payment env apin World.init).2.log

/-- The exit of a complete run of `dora_payment`. -/
def payment_exit (env : Env) (apin : payment_input_t) : Exit :=
  exitOf (dora_payment env apin World.init)

/-- The log of a complete run of `dora_mbench_cust`. -/
def mbench_cust_log (env : Env) (whid : Int) : List Event :=
  (dora_mbench_cust env whid World.init).2.log

/-- The log of a complete run of `dora_mbench_wh`. -/
def mbench_wh_log (env : Env) (whid : Int) : List Event :=
  (dora_mbench_wh env whid World.init).2.log

/-- The effect of one operation on the enqueue locks the coordinator holds:
`acquire` adds the lock, `release` removes it. -/
def holdStep (held : List Lock) : Event → List Lock
  | .acquire l => l :: held
  | .release l => held.erase l
  | _ => held

/-- The enqueue locks the coordinator holds after the operations of a log. -/
def heldAfter (log : List Event) : List Lock :=
  log.foldl holdStep []

/-- Whether an operation is a lock operation or an enqueue. -/
def Event.isChainOp : Event → Bool
  | .acquire _ => true
  | .release _ => true
  | .enqueue _ _ _ _ => true
  | _ => false

/-- Whether an operation is an enqueue. -/
def Event.isEnqueue : Event → Bool
  | .enqueue _ _ _ _ => true
  | _ => false

/-- Whether an operation is an `add_action` on an RVP. -/
def Event.isAddAction : Event → Bool
  | .add_action _ _ => true
  | _ => false

/-- The actions registered with an RVP by the `add_action` calls of a log, in
the order of the calls. -/
def addedActions (log : List Event) (r : Rvp) : List Action :=
  log.filterMap fun e =>
    match e with
    | .add_action r1 a => if r1 = r then some a else none
    | _ => none

/-- Modelled from the spec: the partition `enqueue` of `partition_t`, whose
code is not part of the sources at hand. "`enqueue(action, partition_id)`
appends the action to the partition's queue" and on failure leaves the queue
alone; so the queue of partition `part` of table `t` after a log holds the
actions of the enqueue calls into it that returned 0, in call order. -/
def queueOf (log : List Event) (t : Table) (part : Int) : List Action :=
  log.filterMap fun e =>
    match e with
    | .enqueue t1 p1 a rc => if t1 = t ∧ p1 = part ∧ rc = 0 then some a else none
    | _ => none

/-! ### Decomposition of the coordinators used by the proofs

`dora_payment` is its steps 1 to 4 followed by the enqueue block of step 5;
`dora_payment_split` below proves that the two parts compose to the function
above. -/

/-- Steps 1 to 4 of `dora_payment`. -/
def payment_setup (env : Env) : Coord Unit := do
  c_assert env env.g_dora
  W_DO_begin_xct env
  c_assert env env.xct
  emit (.new_rvp .midway_pay_rvp)
  c_assert env true
  deref env.g_dora
  emit (.get_action .pay_upd_cust)
  c_assert env (env.get_action .pay_upd_cust)
  deref (env.get_action .pay_upd_cust)
  emit (.set_input .pay_upd_cust .midway_pay_rvp)
  emit (.set_m_rvp .pay_upd_cust .midway_pay_rvp)
  emit (.add_action .midway_pay_rvp .pay_upd_cust)
  emit (.get_action .pay_upd_dist)
  c_assert env (env.get_action .pay_upd_dist)
  deref (env.get_action .pay_upd_dist)
  emit (.set_input .pay_upd_dist .midway_pay_rvp)
  emit (.set_m_rvp .pay_upd_dist .midway_pay_rvp)
  emit (.add_action .midway_pay_rvp .pay_upd_dist)
  emit (.get_action .pay_upd_wh)
  c_assert env (env.get_action .pay_upd_wh)
  deref (env.get_action .pay_upd_wh)
  emit (.set_input .pay_upd_wh .midway_pay_rvp)
  emit (.set_m_rvp .pay_upd_wh .midway_pay_rvp)
  emit (.add_action .midway_pay_rvp .pay_upd_wh)
  emit .detach_xct

/-- Step 5 of `dora_payment`: the block of the chained critical sections. -/
def payment_chain (env : Env) (mypartition : Int) : Coord Unit := do
  CRITICAL_SECTION ⟨.whs, mypartition⟩
  if (← enqueue env .whs mypartition .pay_upd_wh) ≠ 0 then
    c_assert env false
    c_return .de_PROBLEM_ENQUEUE
  CRITICAL_SECTION ⟨.dis, mypartition⟩
  cs_exit ⟨.whs, mypartition⟩
  if (← enqueue env .dis mypartition .pay_upd_dist) ≠ 0 then
    c_assert env false
    c_return .de_PROBLEM_ENQUEUE
  CRITICAL_SECTION ⟨.cus, mypartition⟩
  cs_exit ⟨.dis, mypartition⟩
  if (← enqueue env .cus mypartition .pay_upd_cust) ≠ 0 then
    c_assert env false
    c_return .de_PROBLEM_ENQUEUE
  leave_scope
  c_return .RCOK

/-- The log of steps 1 to 4 of `dora_payment` when none of them ends the run. -/
def setupLog : List Event :=
  [.begin_xct, .new_rvp .midway_pay_rvp,
   .get_action .pay_upd_cust, .set_input .pay_upd_cust .midway_pay_rvp,
   .set_m_rvp .pay_upd_cust .midway_pay_rvp, .add_action .midway_pay_rvp .pay_upd_cust,
   .get_action .pay_upd_dist, .set_input .pay_upd_dist .midway_pay_rvp,
   .set_m_rvp .pay_upd_dist .midway_pay_rvp, .add_action .midway_pay_rvp .pay_upd_dist,
   .get_action .pay_upd_wh, .set_input .pay_upd_wh .midway_pay_rvp,
   .set_m_rvp .pay_upd_wh .midway_pay_rvp, .add_action .midway_pay_rvp .pay_upd_wh,
   .detach_xct]

/-- The log of step 5 of `dora_payment`, for the return values `rw`, `rd`, `rc`
of the three enqueues and with asserts compiled in (`as`) or not. -/
def chain_log (as : Bool) (p rw rd rc : Int) : List Event :=
  [.acquire ⟨.whs, p⟩, .enqueue .whs p .pay_upd_wh rw] ++
  if rw ≠ 0 then (if as then [] else [.release ⟨.whs, p⟩]) else
  [.acquire ⟨.dis, p⟩, .release ⟨.whs, p⟩, .enqueue .dis p .pay_upd_dist rd] ++
  if rd ≠ 0 then (if as then [] else [.release ⟨.dis, p⟩]) else
  [.acquire ⟨.cus, p⟩, .release ⟨.dis, p⟩, .enqueue .cus p .pay_upd_cust rc] ++
  if rc ≠ 0 then (if as then [] else [.release ⟨.cus, p⟩]) else [.release ⟨.cus, p⟩]

/-- The exit of step 5 of `dora_payment`. -/
def chain_exit (as : Bool) (rw rd rc : Int) : Exit :=
  if rw = 0 ∧ rd = 0 ∧ rc = 0 then .returned .RCOK
  else if as then .assertion_failed else .returned .de_PROBLEM_ENQUEUE

/-- Check of a run of the setup steps against the log `full` of a complete
setup: a run that continues has logged exactly `full`, one that stops has
logged a prefix of it and stopped on an assert or a null pointer. -/
def setupGood (full : List Event) (r : Step Unit × World) : Bool :=
  match r with
  | (.next _, w) => decide (w = ⟨full, []⟩)
  | (.stop e, w) => decide (w.cs = []) && w.log.isPrefixOf full &&
      (e == .assertion_failed || e == .null_dereference)

/-- The environment with the given flags, a storage manager that begins the
transaction, and enqueues that succeed. -/
def envOf (as g x c d w : Bool) : Env :=
  { asserts := as, g_dora := g, begin_xct_error := none, xct := x,
    get_action := fun a =>
      match a with
      | .pay_upd_cust => c
      | .pay_upd_dist => d
      | _ => w,
    enqueue := fun _ _ _ => 0 }

/-- Steps 1 to 4 of `dora_mbench_cust` and `dora_mbench_wh`, for their action. -/
def mbench_setup (env : Env) (a : Action) : Coord Unit := do
  c_assert env env.g_dora
  W_DO_begin_xct env
  c_assert env env.xct
  emit (.new_rvp .final_mb_rvp)
  c_assert env true
  deref env.g_dora
  emit (.get_action a)
  c_assert env (env.get_action a)
  deref (env.get_action a)
  emit (.set_input a .final_mb_rvp)
  emit (.add_action .final_mb_rvp a)
  emit .detach_xct

/-- Step 5 of `dora_mbench_cust` and `dora_mbench_wh`, for their table and
action. -/
def mbench_chain (env : Env) (t : Table) (a : Action) (mypartition : Int) : Coord Unit := do
  CRITICAL_SECTION ⟨t, mypartition⟩
  if (← enqueue env t mypartition a) ≠ 0 then
    c_assert env false
    c_return .de_PROBLEM_ENQUEUE
  leave_scope
  c_return .RCOK

/-- The log of steps 1 to 4 of a micro-benchmark coordinator when none of them
ends the run. -/
def mbSetupLog (a : Action) : List Event :=
  [.begin_xct, .new_rvp .final_mb_rvp, .get_action a, .set_input a .final_mb_rvp,
   .add_action .final_mb_rvp a, .detach_xct]

/-- The log of step 5 of a micro-benchmark coordinator. -/
def mb_chain_log (as : Bool) (t : Table) (a : Action) (p r : Int) : List Event :=
  [.acquire ⟨t, p⟩, .enqueue t p a r] ++
  if r ≠ 0 then (if as then [] else [.release ⟨t, p⟩]) else [.release ⟨t, p⟩]

/-- The held locks before each operation of a log, paired with the operation,
starting from the locks `held`. -/
def pointsFrom (held : List Lock) : List Event → List (List Lock × Event)
  | [] => []
  | e :: es => (held, e) :: pointsFrom (holdStep held e) es

/-! ### `include/dora/common.h`: the action classes and generators -/

/-- The two macros of `common.h` that declare an action class. -/
inductive ActionClass
  | NO_RVP
  | WITH_RVP
  deriving DecidableEq, Repr

/-- The method `set(axct, atid, prvp, in, penv, pc)` of an action class declared
by `DECLARE_DORA_ACTION_NO_RVP_CLASS` or `DECLARE_DORA_ACTION_WITH_RVP_CLASS`.
The flags `prvp`, `penv`, `pc` tell whether the RVP, the environment and
the cache passed in are non-null. The call `_range_act_set(axct,atid,prvp,
keylen)` that ends the method is logged as one operation. -/
def action_set (env : Env) (cls : ActionClass) (a : Action) (r : Rvp)
    (prvp penv pc : Bool) : Coord Unit :=
  match cls with
  | .NO_RVP => do
    c_assert env pc
    c_assert env penv
    emit (.range_act_set a r)
  | .WITH_RVP => do
    c_assert env pc
    c_assert env prvp
    c_assert env penv
    emit (.range_act_set a r)

/-- The generator `classname::new_actioname(axct, atid, prvp, in)` defined by
`DEFINE_DORA_ACTION_GEN_FUNC`, for an action class of kind `cls`. `borrowed`
tells whether the cache hands out an object, `prvp` whether the RVP passed
in is non-null, `pc` whether `my_actioname_cache->_cache.get()` is; `this`
is never null. -/
def DEFINE_DORA_ACTION_GEN_FUNC (env : Env) (cls : ActionClass) (a : Action) (r : Rvp)
    (borrowed prvp pc : Bool) : Coord Action := do
  emit (.borrow a)
  c_assert env borrowed
  deref borrowed
  action_set env cls a r prvp true pc
  deref prvp
  emit (.add_action r a)
  pure a

/-- An environment in which nothing goes wrong: asserts compiled in, all
pointers valid, the transaction begins, every enqueue returns 0. -/
def envAllOk : Env := envOf true true true true true true

/-- An environment without asserts in which the enqueue into the district
table fails (returns 1) and all else goes well. -/
def envDisFails : Env :=
  { envOf false true true true true true with
    enqueue := fun t _ _ => if t = .dis then 1 else 0 }

/-- The environment `envDisFails` with asserts compiled in. -/
def envDisFailsDebug : Env :=
  { envDisFails with asserts := true }

/-! ### Two concurrent coordinators

The interleavings of two invocations of a coordinator are modelled over the
state the invocations share: the enqueue locks and the queues of the
partitions. Each coordinator performs the lock operations and enqueues of its
log, in order; a schedule picks which coordinator moves next. An `acquire`
of a lock that is held blocks: the step leaves the system unchanged. The
definitions are generic in the type `L` that names the partitions. -/

/-- The two invocations. -/
inductive Tid
  | T1
  | T2
  deriving DecidableEq, Repr

/-- The operations on the shared state: lock operations and enqueues, the
latter with their success. -/
inductive Op (L : Type)
  | acquire (l : L)
  | release (l : L)
  | enqueue (q : L) (ok : Bool)
  deriving DecidableEq, Repr

/-- The shared-state operation of an operation of a coordinator, if it is one. -/
def opOf : Event → Option (Op Lock)
  | .acquire l => some (.acquire l)
  | .release l => some (.release l)
  | .enqueue t part _ rc => some (.enqueue ⟨t, part⟩ (decide (rc = 0)))
  | _ => none

/-- The shared-state operations of a log, in order. -/
def sharedOps (log : List Event) : List (Op Lock) :=
  log.filterMap opOf

/-- The system of two coordinators: what each still has to do, who holds
which enqueue lock, and the enqueued actions, oldest first, each as the
partition and the coordinator whose action it is. -/
structure System (L : Type) where
  todo1 : List (Op L)
  todo2 : List (Op L)
  locks : List (L × Tid)
  queues : List (L × Tid)
  deriving DecidableEq, Repr

/-- What a coordinator still has to do. -/
def System.todo {L : Type} (s : System L) : Tid → List (Op L)
  | .T1 => s.todo1
  | .T2 => s.todo2

/-- Replace what a coordinator still has to do. -/
def System.setTodo {L : Type} (s : System L) (t : Tid) (rest : List (Op L)) : System L :=
  match t with
  | .T1 => { s with todo1 := rest }
  | .T2 => { s with todo2 := rest }

/-- Coordinator `t` performs its next operation, `rest` being what follows.
Acquiring a lock that is held (mutual exclusion) blocks; releasing gives the
lock up; a successful enqueue appends to the queues. -/
def System.exec {L : Type} [DecidableEq L] (s : System L) (t : Tid) (rest : List (Op L)) :
    Op L → System L
  | .acquire l =>
    if s.locks.any (fun x => decide (x.1 = l)) then s
    else { s.setTodo t rest with locks := (l, t) :: s.locks }
  | .release l =>
    { s.setTodo t rest with locks := s.locks.filter (fun x => decide (x ≠ (l, t))) }
  | .enqueue q ok =>
    { s.setTodo t rest with queues := if ok then s.queues ++ [(q, t)] else s.queues }

/-- One step of the schedule: coordinator `t` moves, if it can. -/
def System.step {L : Type} [DecidableEq L] (s : System L) (t : Tid) : System L :=
  match s.todo t with
  | [] => s
  | op :: rest => s.exec t rest op

/-- The system after a schedule. -/
def System.run {L : Type} [DecidableEq L] (s : System L) (sched : List Tid) : System L :=
  sched.foldl System.step s

/-- The system before any step: no lock held, nothing enqueued. -/
def System.init {L : Type} (p1 p2 : List (Op L)) : System L :=
  { todo1 := p1, todo2 := p2, locks := [], queues := [] }

/-- The coordinators whose actions are in the queue of partition `q`, in
enqueue order. -/
def enqOrder {L : Type} [DecidableEq L] (s : System L) (q : L) : List Tid :=
  (s.queues.filter (fun x => decide (x.1 = q))).map Prod.snd

/-- The system of two invocations of `dora_payment`. -/
def payment_system (env1 : Env) (apin1 : payment_input_t) (env2 : Env)
    (apin2 : payment_input_t) : System Lock :=
  System.init (sharedOps (payment_log env1 apin1)) (sharedOps (payment_log env2 apin2))

/-! ### Auxiliary definitions of the proof of the enqueue order -/

/-- Renaming of the partitions in an operation. -/
def Op.map {L M : Type} (f : L → M) : Op L → Op M
  | .acquire l => .acquire (f l)
  | .release l => .release (f l)
  | .enqueue q ok => .enqueue (f q) ok

/-- Renaming of the partitions in a system. -/
def System.map {L M : Type} (f : L → M) (s : System L) : System M :=
  { todo1 := s.todo1.map (Op.map f), todo2 := s.todo2.map (Op.map f),
    locks := s.locks.map (Prod.map f id), queues := s.queues.map (Prod.map f id) }

/-- The shared-state operations of the enqueue block of `dora_payment`, with
the partitions named by their table. -/
def absChain (as okw okd okc : Bool) : List (Op Table) :=
  [.acquire .whs, .enqueue .whs okw] ++
  if !okw then (if as then [] else [.release .whs]) else
  [.acquire .dis, .release .whs, .enqueue .dis okd] ++
  if !okd then (if as then [] else [.release .dis]) else
  [.acquire .cus, .release .dis, .enqueue .cus okc] ++
  if !okc then (if as then [] else [.release .cus]) else [.release .cus]

/-- All sequences of shared-state operations a run of `dora_payment` can have. -/
def absPrograms : List (List (Op Table)) :=
  [[], absChain false false true true, absChain true false true true,
   absChain false true false true, absChain true true false true,
   absChain false true true false, absChain true true true false,
   absChain false true true true]

/-- The systems one effective step away from a system of `R`. -/
def succs {L : Type} [DecidableEq L] (R : List (System L)) : List (System L) :=
  (R.flatMap (fun s => ([s.step .T1, s.step .T2]).filter (fun s1 => decide (s1 ≠ s)))).dedup

/-- The systems at most `n` effective steps away from a system of `R`. -/
def collect {L : Type} [DecidableEq L] : Nat → List (System L) → List (System L)
  | 0, R => R
  | n + 1, R => R ++ collect n (succs R)

/-- The number of operations still to do. -/
def System.measure {L : Type} (s : System L) : Nat := s.todo1.length + s.todo2.length

/-- All systems some schedule leads to from `s0`. -/
def reachable {L : Type} [DecidableEq L] (s0 : System L) : List (System L) :=
  collect s0.measure [s0]

/-- The order of T1 before T2 in the queue of `qa` is kept in the queue of
`qb`, for coordinators with operations `p1` and `p2`: if both are in the
queue of `qb`, T1 is first; T2 is not in it ahead of an enqueue of T1 still to
come; and once both have finished, T1 is first if both enqueue there. -/
@[reducible] def Kept {L : Type} [DecidableEq L] (p1 p2 : List (Op L)) (s : System L)
    (qa qb : L) : Prop :=
  enqOrder s qa = [.T1, .T2] →
    (Tid.T1 ∈ enqOrder s qb → Tid.T2 ∈ enqOrder s qb → enqOrder s qb = [.T1, .T2]) ∧
    (Tid.T2 ∈ enqOrder s qb → Tid.T1 ∉ enqOrder s qb → Op.enqueue qb true ∉ s.todo1) ∧
    (s.todo1 = [] → s.todo2 = [] → Op.enqueue qb true ∈ p1 → Op.enqueue qb true ∈ p2 →
      enqOrder s qb = [.T1, .T2])

set_option synthInstance.maxSize 1024 in
instance {L : Type} [DecidableEq L] (p1 p2 : List (Op L)) (s : System L) (qa qb : L) :
    Decidable (Kept p1 p2 s qa qb) :=
  inferInstance

end tpcc

/-! ## `src/workload/tpcc/dbgen/tpcc_rnd.cpp`: random values for TPC-C

The type `int` is 32 bits wide. Arithmetic on `int` is modelled on the
integers, each result wrapped into the range of `int` (two's complement), so
that an overflow is visible as a wrapped value; `/` and `%` truncate toward
zero as in C, and a division by zero gives no result (`none`). The outcomes
of `random()` are parameters of the functions that call it. -/

namespace tpcc_rnd

/-- The least value of type `int`. -/
def INT_MIN : Int := -2147483648

/-- The greatest value of type `int`. -/
def INT_MAX : Int := 2147483647

/-- The value of type `int` that an integer result is stored as. -/
def wrap_int (z : Int) : Int :=
  (z + 2147483648) % 4294967296 - 2147483648

/-- The function `rand_integer(val_lo, val_hi)`:
`return((random()%(val_hi-val_lo+1))+val_lo);`, where `rnd` is the outcome of
`random()`, a `long`: the remainder and the sum are computed in `long` and the
result is converted to `int`. -/
def rand_integer (rnd : Int) (val_lo val_hi : Int) : Option Int :=
  let n := wrap_int (wrap_int (val_hi - val_lo) + 1)
  if n = 0 then none
  else some (wrap_int (Int.tmod rnd n + val_lo))

/-- The function `NUrand_val(A, x, y, C)`:
`return((((rand_integer(0,A)|rand_integer(x,y))+C)%(y-x+1))+x);`, where `rnd1`
is the outcome of `random()` in `rand_integer(0,A)` and `rnd2` the one in
`rand_integer(x,y)`. -/
def NUrand_val (rnd1 rnd2 : Int) (A x y C : Int) : Option Int :=
  match rand_integer rnd1 0 A, rand_integer rnd2 x y with
  | some r1, some r2 =>
    let n := wrap_int (wrap_int (y - x) + 1)
    if n = 0 then none
    else some (wrap_int (Int.tmod (wrap_int (Int.lor r1 r2 + C)) n + x))
  | _, _ => none

/-- The table `last_name_parts`. -/
def last_name_parts : List String :=
  ["BAR", "OUGHT", "ABLE", "PRI", "PRES", "ESE", "ANTI", "CALLY", "ATION", "EING"]

/-- The read `last_name_parts[i]`: an index outside the table gives no result. -/
def last_name_parts_at (i : Int) : Option String :=
  if 0 ≤ i then last_name_parts[i.toNat]? else none

/-- The function `create_random_last_name(out_buffer, cust_num)`. The result is
the string left in `out_buffer` and the value returned. The constants
`A_C_LAST` and `C_C_LAST_LOAD` of `tpcc_conf.h` are parameters, as are the
two outcomes of `random()` inside `NUrand_val`. -/
def create_random_last_name (A_C_LAST C_C_LAST_LOAD : Int) (rnd1 rnd2 : Int) (cust_num : Int) :
    Option (String × Int) := do
  let random_num ←
    if cust_num = 0 then NUrand_val rnd1 rnd2 A_C_LAST 0 999 C_C_LAST_LOAD
    else some (wrap_int (cust_num - 1))
  let out_buffer ← last_name_parts_at (Int.tdiv random_num 100)
  let random_num := Int.tmod random_num 100
  let out_buffer := out_buffer ++ (← last_name_parts_at (Int.tdiv random_num 10))
  let random_num := Int.tmod random_num 10
  let out_buffer := out_buffer ++ (← last_name_parts_at random_num)
  some (out_buffer, out_buffer.length)

/-- The last name the description of `create_random_last_name` assigns to a
number: the parts for its hundreds, tens and units digits, concatenated. -/
def spec_last_name (n : Int) : String :=
  last_name_parts.getD (n / 100 % 10).toNat "" ++
  last_name_parts.getD (n / 10 % 10).toNat "" ++
  last_name_parts.getD (n % 10).toNat ""

end tpcc_rnd

/-! ## `src/util/alignedops.cpp`: aligned allocation

The type `size_t` is 64 bits wide: arithmetic on it is modulo `2^64`.
Addresses are numbers, the null pointer is 0. -/

namespace alignedops

/-- The number of values of `size_t`. -/
def SIZE_MOD : Nat := 18446744073709551616

/-- The search loop of `aligned_alloc`:
`for (a = (size_t)big_buf; (a % align_size) != 0; a++);`, run for at most
`fuel` tests of its condition. -/
def aligned_search (align_size : Nat) : Nat → Nat → Option Nat
  | 0, _ => none
  | fuel + 1, aligned_base_addr =>
    if aligned_base_addr % align_size ≠ 0 then
      aligned_search align_size fuel ((aligned_base_addr + 1) % SIZE_MOD)
    else some aligned_base_addr

/-- How a call of `aligned_alloc` ends: it returns `NULL`, an `assert` fails,
or it returns the block `big_buf` and stores `aligned_base`. -/
inductive AllocResult
  | null
  | assertion_failed
  | allocated (big_buf : Nat) (aligned_base : Nat)
  deriving DecidableEq, Repr

/-- The function `aligned_alloc(buf, buf_size, align_size, aligned_base)`, which
does not use `buf`. `asserts`
tells whether `assert` is compiled in, `new_char n` is the address that
`new char[n]` gives (0 for none). The search loop is given `align_size` tests
of its condition; `none` is a run without result (a remainder by zero). -/
def aligned_alloc (asserts : Bool) (new_char : Nat → Nat) (buf_size align_size : Nat) :
    Option AllocResult :=
  if asserts && !decide (buf_size > 0) then some .assertion_failed
  else if asserts && !decide (align_size > 0) then some .assertion_failed
  else
    let alloc_size := (buf_size + align_size + (SIZE_MOD - 1)) % SIZE_MOD
    let big_buf := new_char alloc_size
    if big_buf = 0 then some .null
    else if align_size = 0 then none
    else
      match aligned_search align_size align_size big_buf with
      | none => none
      | some aligned_base_addr =>
        if asserts && !decide (aligned_base_addr < (big_buf + alloc_size) % SIZE_MOD) then
          some .assertion_failed
        else some (.allocated big_buf aligned_base_addr)

end alignedops

/-! ## The result of a transaction -/

/-- The states of a transaction that the sources name (`TrxState`). -/
inductive TrxState
  | UNDEF
  | UNSUBMITTED
  | COMMITTED
  | ROLLBACKED
  deriving DecidableEq, Repr

/-- The result record `trx_result_tuple_t`: a state and the transaction id. -/
structure trx_result_tuple_t where
  R_STATE : TrxState
  R_ID : Int
  deriving DecidableEq, Repr

/-! ## `src/stages/tpcc/payment_baseline.cpp`: the PAYMENT transaction over BerkeleyDB

The database is a map from a table and a key to the data stored, together
with the log of the calls made on it. A call of the database either returns
or throws a `DbException`. Amounts are exact decimals, counted in units of
their last decimal place. -/

namespace payment_baseline

/-- The tables `tpcc_tables[...]` the transaction names. -/
inductive TpccTable
  | TPCC_TABLE_WAREHOUSE
  | TPCC_TABLE_DISTRICT
  | TPCC_TABLE_CUSTOMER
  deriving DecidableEq, Repr

/-- The fields of `tpcc_warehouse_tuple` the transaction uses. -/
structure tpcc_warehouse_tuple where
  W_YTD : Int
  deriving DecidableEq, Repr

/-- The fields of `tpcc_district_tuple` the transaction uses. -/
structure tpcc_district_tuple where
  D_YTD : Int
  deriving DecidableEq, Repr

/-- The fields of `tpcc_customer_tuple` the transaction uses. `C_DATA` is the
truth value of `C_DATA_1 && C_DATA_2`. -/
structure tpcc_customer_tuple where
  C_BALANCE : Int
  C_YTD_PAYMENT : Int
  C_PAYMENT_CNT : Int
  C_CREDIT : List Char
  C_DATA : Bool
  deriving DecidableEq, Repr

/-- The data of a row (`Dbt`). -/
inductive Dbt
  | warehouse (w : tpcc_warehouse_tuple)
  | district (d : tpcc_district_tuple)
  | customer (c : tpcc_customer_tuple)
  deriving DecidableEq, Repr

/-- The calls on the database that returned, as logged: `put` with the value it
returned. -/
inductive DbCall
  | txn_begin
  | get (t : TpccTable) (key : List Int)
  | put (t : TpccTable) (key : List Int) (data : Dbt) (rc : Int)
  | commit
  | abort
  deriving DecidableEq, Repr

/-- The kinds of call on the database. -/
inductive DbOp
  | txn_begin
  | get (t : TpccTable)
  | put (t : TpccTable)
  | commit
  | abort
  deriving DecidableEq, Repr

/-- What ends a function other than a return: an exception thrown, a failed
`assert`, or data that is not a tuple of the type it is cast to. -/
inductive Raise
  | DbException (errno : Int)
  | BdbException
  | assertion_failed
  | bad_cast
  deriving DecidableEq, Repr

/-- What the transaction takes from its surroundings. -/
structure DbEnv where
  /-- Whether `assert` is compiled in. -/
  asserts : Bool
  /-- Whether the class `BdbException` derives from `DbException`, so that
  `catch(DbException err)` catches it. -/
  BdbException_is_DbException : Bool
  /-- The error a kind of call throws as a `DbException`; `none`: it returns. -/
  db_error : DbOp → Option Int
  /-- The value a `put` into a table returns; 0 is success. -/
  put_rc : TpccTable → Int

/-- The database and the log of the calls made on it, oldest first. -/
structure DbWorld where
  tables : TpccTable → List Int → Option Dbt
  calls : List DbCall

/-- A statement either yields a value or is left by a `Raise`. -/
inductive Res (α : Type)
  | ok (a : α)
  | raised (r : Raise)
  deriving DecidableEq, Repr

/-- Programs over the database. -/
def Bdb (α : Type) : Type := DbWorld → Res α × DbWorld

/-- Sequencing of statements. -/
def Bdb.bind {α β : Type} (m : Bdb α) (f : α → Bdb β) : Bdb β :=
  fun w => match m w with
    | (.ok a, w1) => f a w1
    | (.raised r, w1) => (.raised r, w1)

instance : Monad Bdb where
  pure a := fun w => (.ok a, w)
  bind := Bdb.bind

/-- Leave the function by `r`. -/
def raise {α : Type} (r : Raise) : Bdb α :=
  fun w => (.raised r, w)

/-- The statement `try { body } catch(DbException err) { handler }`. -/
def try_catch {α : Type} (env : DbEnv) (body : Bdb α) (handler : Bdb α) : Bdb α :=
  fun w => match body w with
    | (.raised (.DbException _), w1) => handler w1
    | (.raised .BdbException, w1) =>
      if env.BdbException_is_DbException then handler w1 else (.raised .BdbException, w1)
    | r => r

/-- The C `assert(c)`. -/
def b_assert (env : DbEnv) (c : Bool) : Bdb Unit :=
  if env.asserts && !c then raise .assertion_failed else pure ()

/-- A call on the database without result: `txn_begin`, `commit`, `abort`. -/
def db_call (env : DbEnv) (op : DbOp) (c : DbCall) : Bdb Unit :=
  match env.db_error op with
  | some e => raise (.DbException e)
  | none => fun w => (.ok (), { w with calls := w.calls ++ [c] })

/-- The call `tpcc_tables[t].db->get(txn, &key, &data, DB_RMW)`; `none` is
`DB_NOTFOUND`. -/
def db_get (env : DbEnv) (t : TpccTable) (key : List Int) : Bdb (Option Dbt) :=
  match env.db_error (.get t) with
  | some e => raise (.DbException e)
  | none => fun w => (.ok (w.tables t key), { w with calls := w.calls ++ [.get t key] })

/-- The call `tpcc_tables[t].db->put(txn, &key, &data, 0)`: it stores the data
under the key when it returns 0. -/
def db_put (env : DbEnv) (t : TpccTable) (key : List Int) (data : Dbt) : Bdb Int :=
  match env.db_error (.put t) with
  | some e => raise (.DbException e)
  | none => fun w =>
    (.ok (env.put_rc t),
      { tables := if env.put_rc t = 0 then
          fun t1 k1 => if t1 = t ∧ k1 = key then some data else w.tables t1 k1
          else w.tables,
        calls := w.calls ++ [.put t key data (env.put_rc t)] })

/-- The test `strncmp(C_CREDIT, "BC", 2) == 0`. -/
def strncmp_BC (s : List Char) : Bool :=
  decide (s.take 2 = ['B', 'C'])

/-- The function `updateCustomerData(a_customer)`, called with a non-null
pointer. -/
def updateCustomerData (env : DbEnv) (a_customer : tpcc_customer_tuple) : Bdb Unit := do
  b_assert env true
  b_assert env (strncmp_BC a_customer.C_CREDIT && a_customer.C_DATA)
  b_assert env false

/-- The function `updateCustomerByID(a_txn, wh_id, d_id, c_id, h_amount)`;
`a_txn` tells whether the transaction handle is non-null. -/
def updateCustomerByID (env : DbEnv) (a_txn : Bool) (wh_id d_id c_id : Int) (h_amount : Int) :
    Bdb Int := do
  b_assert env a_txn
  let key_c : List Int := [c_id, d_id, wh_id]
  match ← db_get env .TPCC_TABLE_CUSTOMER key_c with
  | none => raise .BdbException
  | some data_c =>
    match data_c with
    | .customer customer =>
      b_assert env true
      if customer.C_BALANCE < h_amount then
        return 1
      let customer := { customer with C_BALANCE := customer.C_BALANCE - h_amount }
      let customer := { customer with C_YTD_PAYMENT := customer.C_YTD_PAYMENT + h_amount }
      let customer := { customer with C_PAYMENT_CNT := customer.C_PAYMENT_CNT + 1 }
      if strncmp_BC customer.C_CREDIT then
        updateCustomerData env customer
      db_put env .TPCC_TABLE_DISTRICT key_c (.customer customer)
    | _ => raise .bad_cast

/-- The function `updateCustomerByLast(a_txn, wh_id, d_id, c_last, h_amount)`.
Its local `a_customer` is not initialised: the `C_CREDIT` it happens to hold
is the parameter `a_customer_C_CREDIT`. -/
def updateCustomerByLast (env : DbEnv) (a_txn : Bool) (_wh_id _d_id : Int) (_c_last : List Char)
    (_h_amount : Int) (a_customer_C_CREDIT : List Char) : Bdb Int := do
  b_assert env a_txn
  let iResult : Int := 0
  if strncmp_BC a_customer_C_CREDIT then
    updateCustomerData env ⟨0, 0, 0, a_customer_C_CREDIT, true⟩
  b_assert env false
  return iResult

/-- The fields of `payment_baseline_packet_t` the transaction uses. -/
structure payment_baseline_packet_t where
  trx_id : Int
  _home_wh_id : Int
  _home_d_id : Int
  _v_cust_ident_selection : Int
  _c_id : Int
  _c_last : List Char
  _h_amount : Int

/-- Step 2 of `executePaymentBaseline`: the row of the warehouse. -/
def payment_step2 (env : DbEnv) (p : payment_baseline_packet_t) : Bdb Unit := do
  let key_wh : List Int := [p._home_wh_id]
  match ← db_get env .TPCC_TABLE_WAREHOUSE key_wh with
  | none => raise .BdbException
  | some data_wh =>
    match data_wh with
    | .warehouse warehouse =>
      b_assert env true
      let warehouse := { warehouse with W_YTD := warehouse.W_YTD + p._h_amount }
      let _ ← db_put env .TPCC_TABLE_WAREHOUSE key_wh (.warehouse warehouse)
      pure ()
    | _ => raise .bad_cast

/-- Step 3 of `executePaymentBaseline`: the row of the district. -/
def payment_step3 (env : DbEnv) (p : payment_baseline_packet_t) : Bdb Unit := do
  let key_d : List Int := [p._home_d_id, p._home_wh_id]
  match ← db_get env .TPCC_TABLE_DISTRICT key_d with
  | none => raise .BdbException
  | some data_d =>
    match data_d with
    | .district district =>
      b_assert env true
      let district := { district with D_YTD := district.D_YTD + p._h_amount }
      let _ ← db_put env .TPCC_TABLE_DISTRICT key_d (.district district)
      pure ()
    | _ => raise .bad_cast

/-- Step 4 of `executePaymentBaseline`: the row of the customer. -/
def payment_step4 (env : DbEnv) (uninit_C_CREDIT : List Char) (p : payment_baseline_packet_t) :
    Bdb Unit := do
  if p._v_cust_ident_selection < 0 then
    if (← updateCustomerByLast env true p._home_d_id p._home_d_id p._c_last p._h_amount
          uninit_C_CREDIT) ≠ 0 then
      b_assert env false
  else
    if (← updateCustomerByID env true p._home_wh_id p._home_d_id p._c_id p._h_amount) ≠ 0 then
      b_assert env false

/-- The function `executePaymentBaseline(p)`. `TRACE` output and `dbenv->err`
are not modelled. -/
def executePaymentBaseline (env : DbEnv) (uninit_C_CREDIT : List Char)
    (p : payment_baseline_packet_t) : Bdb trx_result_tuple_t :=
  let aTrxResultTuple : trx_result_tuple_t := ⟨.UNDEF, p.trx_id⟩
  try_catch env (do
    db_call env .txn_begin .txn_begin
    payment_step2 env p
    payment_step3 env p
    payment_step4 env uninit_C_CREDIT p
    db_call env .commit .commit
    return aTrxResultTuple)
    (do
      db_call env .abort .abort
      return { aTrxResultTuple with R_STATE := .ROLLBACKED })

/-- A surrounding in which no call on the database fails: asserts compiled in,
every `put` returns 0. -/
def envDb : DbEnv :=
  { asserts := true, BdbException_is_DbException := false, db_error := fun _ => none,
    put_rc := fun _ => 0 }

/-- A surrounding in which the `commit` throws a `DbException`. -/
def envDbCommitFails : DbEnv :=
  { envDb with db_error := fun op => if op = .commit then some 22 else none }

/-- A database with warehouse 1, its district 2, and customer 3 of that
district, with the given balance and credit. -/
def worldDb (c_balance : Int) (c_credit : List Char) : DbWorld :=
  { tables := fun t k =>
      match t with
      | .TPCC_TABLE_WAREHOUSE => if k = [1] then some (.warehouse ⟨300⟩) else none
      | .TPCC_TABLE_DISTRICT => if k = [2, 1] then some (.district ⟨30⟩) else none
      | .TPCC_TABLE_CUSTOMER =>
        if k = [3, 2, 1] then some (.customer ⟨c_balance, 0, 0, c_credit, true⟩) else none,
    calls := [] }

/-- A payment of 10 by customer 3 of district 2 of warehouse 1, selected by id. -/
def packetDb : payment_baseline_packet_t :=
  { trx_id := 7, _home_wh_id := 1, _home_d_id := 2, _v_cust_ident_selection := 50, _c_id := 3,
    _c_last := [], _h_amount := 10 }

/-- A program that leaves the CUSTOMER table as it is. -/
def KeepsCustomer {α : Type} (m : Bdb α) : Prop :=
  ∀ w k, (m w).2.tables .TPCC_TABLE_CUSTOMER k = w.tables .TPCC_TABLE_CUSTOMER k

end payment_baseline

/-! ## `src/stages/tpcc/shore/shore_tpcc_env.cpp`: the DELIVERY transaction

The storage manager is seen through the calls made on it, which are logged,
and through the rows of the `new_order` table. Each call either succeeds or
gives an error code, which `W_DO` returns to the caller. -/

namespace ShoreTPCCEnv

/-- The input `delivery_input_t`. -/
structure delivery_input_t where
  _wh_id : Int
  _carrier_id : Int
  deriving DecidableEq, Repr

/-- The kinds of call on the storage manager inside `W_DO(...)`. -/
inductive SmOp
  | begin_xct
  | no_get_iter
  | no_next
  | sort_next
  | no_delete
  | ord_update_carrier
  | ol_get_iter
  | ol_next
  | ol_update_tuple
  | cust_index_probe
  | commit_xct
  deriving DecidableEq, Repr

/-- The calls on the storage manager that are logged: the start and the commit
of the transaction, the index scan over the new orders of a district, and the
accesses to single rows. -/
inductive SmCall
  | begin_xct
  | new_order_scan (w_id d_id : Int)
  | new_order_delete (w_id d_id no_o_id : Int)
  | order_update_carrier (w_id d_id o_id carrier_id : Int)
  | order_line_update (w_id d_id o_id line : Int)
  | customer_probe (c_id w_id d_id : Int)
  | commit_xct
  deriving DecidableEq, Repr

/-- What `xct_delivery` takes from its surroundings. -/
structure DeliveryEnv where
  /-- Whether `assert` is compiled in. -/
  asserts : Bool
  /-- Whether the argument `pdin` is non-null. -/
  pdin : Bool
  /-- Whether the member `_pssm` is non-null. -/
  _pssm : Bool
  /-- The member `_initialized`. -/
  _initialized : Bool
  /-- The member `_loaded`. -/
  _loaded : Bool
  /-- The constant `DISTRICTS_PER_WAREHOUSE`. -/
  DISTRICTS_PER_WAREHOUSE : Int
  /-- The error a kind of call gives while district `d_id` is processed (0 for
  the calls outside the loop); `none`: the call succeeds. -/
  sm_error : SmOp → Int → Option Nat
  /-- The customer `o_c_id` of order `(w_id, d_id, o_id)`. -/
  o_c_id : Int → Int → Int → Int
  /-- The amounts `ol_amount` of the order lines of order `(w_id, d_id, o_id)`. -/
  ol_amounts : Int → Int → Int → List Int

/-- The rows `(no_w_id, no_d_id, no_o_id)` of the `new_order` table, the log of
the calls made, oldest first, and the result record `trt`. -/
structure ShoreWorld where
  new_order : List (Int × Int × Int)
  calls : List SmCall
  trt : trx_result_tuple_t
  deriving DecidableEq, Repr

/-- How a run of `xct_delivery` ends. -/
inductive SmExit
  | returned (rc : w_rc_t)
  | assertion_failed
  | null_dereference
  deriving DecidableEq, Repr

/-- One statement: it either continues with a value or ends the run. -/
inductive SmStep (α : Type)
  | next (a : α)
  | stop (e : SmExit)
  deriving DecidableEq, Repr

/-- Programs over the storage manager. -/
def Sm (α : Type) : Type := ShoreWorld → SmStep α × ShoreWorld

/-- Sequencing of statements. -/
def Sm.bind {α β : Type} (m : Sm α) (f : α → Sm β) : Sm β :=
  fun w => match m w with
    | (.next a, w1) => f a w1
    | (.stop e, w1) => (.stop e, w1)

instance : Monad Sm where
  pure a := fun w => (.next a, w)
  bind := Sm.bind

/-- End the run. -/
def sm_stop {α : Type} (e : SmExit) : Sm α :=
  fun w => (.stop e, w)

/-- The C `assert(c)`. -/
def sm_assert (env : DeliveryEnv) (c : Bool) : Sm Unit :=
  if env.asserts && !c then sm_stop .assertion_failed else pure ()

/-- Use of a pointer through `->`: a null pointer ends the run. -/
def sm_deref (nonnull : Bool) : Sm Unit :=
  if nonnull then pure () else sm_stop .null_dereference

/-- Log a call on the storage manager. -/
def sm_call (c : SmCall) : Sm Unit :=
  fun w => (.next (), { w with calls := w.calls ++ [c] })

/-- The macro `W_DO(call)`: when the call gives an error the function returns
it, otherwise the call takes effect (`m`). -/
def W_DO (env : DeliveryEnv) (op : SmOp) (d_id : Int) (m : Sm Unit) : Sm Unit :=
  match env.sm_error op d_id with
  | some e => sm_stop (.returned (.sm_error e))
  | none => m

/-- The `no_o_id`s that the scan over the new orders of district `(w_id, d_id)`
loads into the sort buffer `o_id_list`. -/
def new_order_ids (w_id d_id : Int) : Sm (List Int) :=
  fun w =>
    (.next ((w.new_order.filter (fun r => decide (r.1 = w_id ∧ r.2.1 = d_id))).map
      (fun r => r.2.2)), w)

/-- The effect of `_new_order.delete_by_index(_pssm, &rno, w_id, d_id, no_o_id)`. -/
def delete_by_index (w_id d_id no_o_id : Int) : Sm Unit :=
  fun w => (.next (),
    { w with new_order := w.new_order.erase (w_id, d_id, no_o_id),
             calls := w.calls ++ [.new_order_delete w_id d_id no_o_id] })

/-- The call `trt.reset(state, xct_id)`. -/
def trt_reset (state : TrxState) (xct_id : Int) : Sm Unit :=
  fun w => (.next (), { w with trt := ⟨state, xct_id⟩ })

/-- The call `trt.set_state(state)`. -/
def trt_set_state (state : TrxState) : Sm Unit :=
  fun w => (.next (), { w with trt := { w.trt with R_STATE := state } })

/-- The loop over the order lines of the delivered order: each line is updated
and the iterator advanced; the result is `total_amount`. -/
def order_line_loop (env : DeliveryEnv) (w_id d_id no_o_id : Int) :
    List Int → Int → Int → Sm Int
  | [], _, total_amount => pure total_amount
  | current_amount :: rest, line, total_amount => do
    let total_amount := total_amount + current_amount
    W_DO env .ol_update_tuple d_id (sm_call (.order_line_update w_id d_id no_o_id line))
    W_DO env .ol_next d_id (pure ())
    order_line_loop env w_id d_id no_o_id rest (line + 1) total_amount

/-- The body of the loop of `xct_delivery` for district `d_id`. The first entry
of the sorted buffer is the least `no_o_id` loaded; `continue` ends the body. -/
def delivery_district (env : DeliveryEnv) (w_id carrier_id : Int) (d_id : Int) : Sm Unit := do
  -- 1. get the new_order of the district with the min value
  W_DO env .no_get_iter d_id (sm_call (.new_order_scan w_id d_id))
  W_DO env .no_next d_id (pure ())
  let o_id_list ← new_order_ids w_id d_id
  sm_assert env (decide (o_id_list.length ≠ 0))
  W_DO env .sort_next d_id (pure ())
  match (o_id_list.insertionSort (· ≤ ·)).head? with
  | none => pure ()
  | some no_o_id =>
    sm_assert env (decide (no_o_id ≠ 0))
    -- 2. delete the retrieved new order
    W_DO env .no_delete d_id (delete_by_index w_id d_id no_o_id)
    -- 3. update the carrier, get the customer id
    W_DO env .ord_update_carrier d_id
      (sm_call (.order_update_carrier w_id d_id no_o_id carrier_id))
    let c_id := env.o_c_id w_id d_id no_o_id
    -- 4. the order lines
    W_DO env .ol_get_iter d_id (pure ())
    W_DO env .ol_next d_id (pure ())
    let _total_amount ← order_line_loop env w_id d_id no_o_id
      (env.ol_amounts w_id d_id no_o_id) 0 0
    -- 5. the customer of the order
    W_DO env .cust_index_probe d_id (sm_call (.customer_probe c_id w_id d_id))

/-- The values `lo, lo + 1, ...` below `hi`: those a loop
`for (d = lo; d < hi; d++)` takes. -/
def int_range (lo hi : Int) : List Int :=
  (List.range (hi - lo).toNat).map (fun (i : Nat) => lo + (i : Int))

/-- The loop body run for the districts of a list, in order. -/
def delivery_districts (env : DeliveryEnv) (w_id carrier_id : Int) : List Int → Sm Unit
  | [] => pure ()
  | d_id :: rest => do
    delivery_district env w_id carrier_id d_id
    delivery_districts env w_id carrier_id rest

/-- The function `xct_delivery(pdin, xct_id, trt)`; its loop is
`for (int d_id = 1; d_id < DISTRICTS_PER_WAREHOUSE; d_id ++)`. -/
def xct_delivery (env : DeliveryEnv) (pdin : delivery_input_t) (xct_id : Int) : Sm Unit := do
  sm_assert env env.pdin
  sm_assert env env._pssm
  sm_assert env env._initialized
  sm_assert env env._loaded
  sm_deref env.pdin
  let w_id := pdin._wh_id
  let carrier_id := pdin._carrier_id
  trt_reset .UNSUBMITTED xct_id
  sm_deref env._pssm
  W_DO env .begin_xct 0 (sm_call .begin_xct)
  delivery_districts env w_id carrier_id (int_range 1 env.DISTRICTS_PER_WAREHOUSE)
  W_DO env .commit_xct 0 (sm_call .commit_xct)
  trt_set_state .COMMITTED
  sm_stop (.returned .RCOK)

/-- A surrounding with 10 districts per warehouse in which every call succeeds. -/
def env10 : DeliveryEnv :=
  { asserts := true, pdin := true, _pssm := true, _initialized := true, _loaded := true,
    DISTRICTS_PER_WAREHOUSE := 10,
    sm_error := fun _ _ => none, o_c_id := fun _ d o => 100 * d + o,
    ol_amounts := fun _ _ _ => [5, 7] }

/-- Warehouse 1 with two undelivered orders, `30 + d` and `20 + d`, in each
district `d` from 1 to 10. -/
def world10 : ShoreWorld :=
  { new_order := (int_range 1 11).flatMap (fun d => [(1, d, 30 + d), (1, d, 20 + d)]),
    calls := [], trt := ⟨.UNDEF, 0⟩ }

/-- The districts and orders of the new orders deleted by a log of calls. -/
def deliveredDistricts (calls : List SmCall) : List (Int × Int) :=
  calls.filterMap fun c =>
    match c with
    | .new_order_delete _ d o => some (d, o)
    | _ => none

/-- A call that, if it deletes a new order, does so in a district from `lo` to
below `hi`. -/
def callInDistricts (lo hi : Int) : SmCall → Prop
  | .new_order_delete _ d _ => lo ≤ d ∧ d < hi
  | _ => True

/-- A program that only adds calls with property `P` to the log. -/
def OnlyCalls {α : Type} (P : SmCall → Prop) (m : Sm α) : Prop :=
  ∀ w, ∃ evs, (m w).2.calls = w.calls ++ evs ∧ ∀ e ∈ evs, P e

end ShoreTPCCEnv

/-! ## `src/stages/tpcc/shore/shore_tpcc_env.cpp`: the queried factor -/

namespace ShoreTPCCEnv

/-- The operations of `set_qf` on the members of the environment: the scoped
`critical_section_t cs(_queried_mutex)` acquires the mutex and releases it at
the end of its block, and `_queried_factor = aQF` stores a value. `TRACE`
output is not an operation. -/
inductive FactorOp
  | acquire_queried_mutex
  | store_queried_factor (v : Int)
  | release_queried_mutex
  deriving DecidableEq, Repr

/-- The members of `ShoreTPCCEnv` that `set_qf` uses, and the log of the
operations made on them, oldest first. -/
structure FactorState where
  _scaling_factor : Int
  _queried_factor : Int
  ops : List FactorOp
  deriving DecidableEq, Repr

/-- The method `set_qf(aQF)`. -/
def set_qf (aQF : Int) (s : FactorState) : FactorState :=
  if decide (aQF ≥ 0) && decide (aQF ≤ s._scaling_factor) then
    let s := { s with ops := s.ops ++ [FactorOp.acquire_queried_mutex] }
    let s := { s with _queried_factor := aQF, ops := s.ops ++ [FactorOp.store_queried_factor aQF] }
    { s with ops := s.ops ++ [FactorOp.release_queried_mutex] }
  else
    s

/-- A sequence of calls of `set_qf`, one for each argument of the list. -/
def set_qf_calls (args : List Int) (s : FactorState) : FactorState :=
  args.foldl (fun s aQF => set_qf aQF s) s

/-- The range invariant of the queried factor:
`0 <= _queried_factor <= _scaling_factor`. -/
def queried_in_range (s : FactorState) : Prop :=
  0 ≤ s._queried_factor ∧ s._queried_factor ≤ s._scaling_factor

instance (s : FactorState) : Decidable (queried_in_range s) :=
  inferInstanceAs (Decidable (_ ∧ _))

end ShoreTPCCEnv

/-! ## Theorems -/

namespace tpcc

/-! ### The runs of the coordinators in closed form -/

theorem bind_eq {α β : Type} (m : Coord α) (f : α → Coord β) : (m >>= f) = Coord.bind m f := rfl

theorem Coord.bind_assoc {α β γ : Type} (m : Coord α) (f : α → Coord β) (g : β → Coord γ) :
    Coord.bind (Coord.bind m f) g = Coord.bind m (fun a => Coord.bind (f a) g) := by
  funext w
  simp only [Coord.bind]
  rcases h : m w with ⟨r, w1⟩
  cases r <;> simp

theorem dora_payment_split (env : Env) (apin : payment_input_t) :
    dora_payment env apin =
      Coord.bind (payment_setup env) (fun _ => payment_chain env (apin._home_wh_id - 1)) := by
  simp only [dora_payment, payment_setup, payment_chain, bind_eq, Coord.bind_assoc]

theorem dora_mbench_cust_split (env : Env) (whid : Int) :
    dora_mbench_cust env whid =
      Coord.bind (mbench_setup env .upd_cust_mb)
        (fun _ => mbench_chain env .cus .upd_cust_mb (whid - 1)) := by
  simp only [dora_mbench_cust, mbench_setup, mbench_chain, bind_eq, Coord.bind_assoc]

theorem dora_mbench_wh_split (env : Env) (whid : Int) :
    dora_mbench_wh env whid =
      Coord.bind (mbench_setup env .upd_wh_mb)
        (fun _ => mbench_chain env .whs .upd_wh_mb (whid - 1)) := by
  simp only [dora_mbench_wh, mbench_setup, mbench_chain, bind_eq, Coord.bind_assoc]

/-- The ways a setup can stop: on an assert, on a null pointer, or by passing
on the error of `begin_xct`. -/
theorem setupGood_spec (full : List Event) (r : Step Unit × World) (h : setupGood full r = true) :
    r = (.next (), ⟨full, []⟩) ∨
    ∃ e l, r = (.stop e, ⟨l, []⟩) ∧ l <+: full ∧
      (e = .assertion_failed ∨ e = .null_dereference) := by
  rcases r with ⟨r, ⟨l, cs⟩⟩
  cases r with
  | next u =>
    left
    simp only [setupGood, decide_eq_true_eq] at h
    rw [h]
  | stop e =>
    right
    simp only [setupGood, Bool.and_eq_true, decide_eq_true_eq, Bool.or_eq_true, beq_iff_eq,
      List.isPrefixOf_iff_prefix] at h
    obtain ⟨⟨h1, h2⟩, h3⟩ := h
    subst h1
    exact ⟨e, l, rfl, h2, h3⟩

theorem payment_setup_congr (e1 e2 : Env) (h1 : e1.asserts = e2.asserts)
    (h2 : e1.g_dora = e2.g_dora) (h3 : e1.begin_xct_error = e2.begin_xct_error)
    (h4 : e1.xct = e2.xct)
    (h5 : e1.get_action .pay_upd_cust = e2.get_action .pay_upd_cust)
    (h6 : e1.get_action .pay_upd_dist = e2.get_action .pay_upd_dist)
    (h7 : e1.get_action .pay_upd_wh = e2.get_action .pay_upd_wh) :
    payment_setup e1 = payment_setup e2 := by
  simp only [payment_setup, c_assert, W_DO_begin_xct, h1, h2, h3, h4, h5, h6, h7]

theorem payment_setup_closed : ∀ as g x c d w : Bool,
    setupGood setupLog (payment_setup (envOf as g x c d w) World.init) = true := by
  decide

theorem payment_setup_cases (env : Env) :
    payment_setup env World.init = (.next (), ⟨setupLog, []⟩) ∨
    ∃ e l, payment_setup env World.init = (.stop e, ⟨l, []⟩) ∧ l <+: setupLog ∧
      (e = .assertion_failed ∨ e = .null_dereference ∨ ∃ n, e = .returned (.sm_error n)) := by
  cases hb : env.begin_xct_error with
  | none =>
    have hc := payment_setup_congr env
      (envOf env.asserts env.g_dora env.xct (env.get_action .pay_upd_cust)
        (env.get_action .pay_upd_dist) (env.get_action .pay_upd_wh))
      rfl rfl hb rfl rfl rfl rfl
    rw [hc]
    rcases setupGood_spec _ _ (payment_setup_closed _ _ _ _ _ _) with h | ⟨e, l, h1, h2, h3⟩
    · exact Or.inl h
    · exact Or.inr ⟨e, l, h1, h2, h3.elim Or.inl (fun h => Or.inr (Or.inl h))⟩
  | some n =>
    right
    cases ha : env.asserts <;> cases hg : env.g_dora
    · exact ⟨.returned (.sm_error n), [], by
        simp [payment_setup, bind_eq, Coord.bind, c_assert, W_DO_begin_xct, c_return, halt,
          releases, World.init, ha, hg, hb, pure], List.nil_prefix, Or.inr (Or.inr ⟨n, rfl⟩)⟩
    · exact ⟨.returned (.sm_error n), [], by
        simp [payment_setup, bind_eq, Coord.bind, c_assert, W_DO_begin_xct, c_return, halt,
          releases, World.init, ha, hg, hb, pure], List.nil_prefix, Or.inr (Or.inr ⟨n, rfl⟩)⟩
    · exact ⟨.assertion_failed, [], by
        simp [payment_setup, bind_eq, Coord.bind, c_assert, W_DO_begin_xct, c_return, halt,
          releases, World.init, ha, hg, hb, pure], List.nil_prefix, Or.inl rfl⟩
    · exact ⟨.returned (.sm_error n), [], by
        simp [payment_setup, bind_eq, Coord.bind, c_assert, W_DO_begin_xct, c_return, halt,
          releases, World.init, ha, hg, hb, pure], List.nil_prefix, Or.inr (Or.inr ⟨n, rfl⟩)⟩

theorem payment_chain_run (env : Env) (p : Int) (l0 : List Event) :
    (payment_chain env p ⟨l0, []⟩).2.log =
      l0 ++ chain_log env.asserts p (env.enqueue .whs p .pay_upd_wh)
        (env.enqueue .dis p .pay_upd_dist) (env.enqueue .cus p .pay_upd_cust) ∧
    exitOf (payment_chain env p ⟨l0, []⟩) =
      chain_exit env.asserts (env.enqueue .whs p .pay_upd_wh)
        (env.enqueue .dis p .pay_upd_dist) (env.enqueue .cus p .pay_upd_cust) := by
  generalize hw : env.enqueue .whs p .pay_upd_wh = rw
  generalize hd : env.enqueue .dis p .pay_upd_dist = rd
  generalize hc : env.enqueue .cus p .pay_upd_cust = rc
  by_cases h1 : rw = 0 <;> by_cases h2 : rd = 0 <;> by_cases h3 : rc = 0 <;>
  cases ha : env.asserts <;>
  simp [payment_chain, bind_eq, Coord.bind, CRITICAL_SECTION, enqueue, cs_exit, c_assert,
    c_return, leave_scope, halt, releases, chain_log, chain_exit, exitOf, hw, hd, hc, h1, h2,
    h3, ha, pure]

/-- The run of `dora_payment` in closed form: either the setup stops the run,
with a prefix of the setup log and neither `RCOK` nor an enqueue error, or the
log is the setup log followed by the log of the enqueue block. -/
theorem payment_run_cases (env : Env) (apin : payment_input_t) :
    (payment_log env apin <+: setupLog ∧
      (payment_exit env apin = .assertion_failed ∨
       payment_exit env apin = .null_dereference ∨
       ∃ n, payment_exit env apin = .returned (.sm_error n))) ∨
    (payment_log env apin = setupLog ++ chain_log env.asserts (apin._home_wh_id - 1)
        (env.enqueue .whs (apin._home_wh_id - 1) .pay_upd_wh)
        (env.enqueue .dis (apin._home_wh_id - 1) .pay_upd_dist)
        (env.enqueue .cus (apin._home_wh_id - 1) .pay_upd_cust) ∧
      payment_exit env apin = chain_exit env.asserts
        (env.enqueue .whs (apin._home_wh_id - 1) .pay_upd_wh)
        (env.enqueue .dis (apin._home_wh_id - 1) .pay_upd_dist)
        (env.enqueue .cus (apin._home_wh_id - 1) .pay_upd_cust)) := by
  unfold payment_log payment_exit
  rw [dora_payment_split]
  rcases payment_setup_cases env with h | ⟨e, l, h1, h2, h3⟩
  · right
    simp only [Coord.bind, h]
    exact payment_chain_run env _ setupLog
  · left
    simp only [Coord.bind, h1, exitOf]
    exact ⟨h2, h3⟩

theorem chain_log_pfx (as : Bool) (p rw rd rc : Int) :
    chain_log as p rw rd rc <+: chain_log false p rw rd rc := by
  cases as
  · exact List.prefix_refl _
  · by_cases h1 : rw = 0 <;> by_cases h2 : rd = 0 <;> by_cases h3 : rc = 0 <;>
      simp [chain_log, h1, h2, h3, List.prefix_iff_eq_take]

/-- Every log of `dora_payment` is a prefix of a log of a run that no assert
or null pointer cuts short. -/
theorem payment_log_pfx (env : Env) (apin : payment_input_t) :
    payment_log env apin <+: setupLog ++ chain_log false (apin._home_wh_id - 1)
        (env.enqueue .whs (apin._home_wh_id - 1) .pay_upd_wh)
        (env.enqueue .dis (apin._home_wh_id - 1) .pay_upd_dist)
        (env.enqueue .cus (apin._home_wh_id - 1) .pay_upd_cust) := by
  rcases payment_run_cases env apin with ⟨h, _⟩ | ⟨h, _⟩
  · exact h.trans (List.prefix_append _ _)
  · rw [h]
    exact (List.prefix_append_right_inj _).mpr (chain_log_pfx _ _ _ _ _)

/-! ### Held locks along a log -/

theorem foldl_take_mem_scanl (l : List Event) (held : List Lock) (k : Nat) :
    (l.take k).foldl holdStep held ∈ List.scanl holdStep held l := by
  induction l generalizing held k with
  | nil => simp [List.scanl]
  | cons e es ih =>
    cases k with
    | zero => simp [List.scanl]
    | succ k =>
      simp only [List.take_succ_cons, List.foldl_cons, List.scanl, List.mem_cons]
      exact Or.inr (ih _ _)

/-- The locks held after any number of operations of a prefix of `full` occur
among the running lock sets of `full`. -/
theorem heldAfter_take_mem (l full : List Event) (h : l <+: full) (k : Nat) :
    heldAfter (l.take k) ∈ List.scanl holdStep [] full := by
  have h1 : l.take k <+: full := (List.take_prefix k l).trans h
  rw [List.prefix_iff_eq_take] at h1
  rw [h1]
  exact foldl_take_mem_scanl full [] _

theorem pointsFrom_mem (l : List Event) (held : List Lock) (k : Nat) (e : Event)
    (h : l[k]? = some e) :
    ((l.take k).foldl holdStep held, e) ∈ pointsFrom held l := by
  induction l generalizing held k with
  | nil => simp at h
  | cons x xs ih =>
    cases k with
    | zero =>
      simp only [List.getElem?_cons_zero, Option.some.injEq] at h
      subst h
      simp [pointsFrom]
    | succ k =>
      simp only [List.getElem?_cons_succ] at h
      simp only [List.take_succ_cons, List.foldl_cons, pointsFrom, List.mem_cons]
      exact Or.inr (ih _ _ h)

theorem getElem?_lt_length (l : List Event) (k : Nat) (e : Event) (h : l[k]? = some e) :
    k < l.length := by
  by_contra hc
  rw [List.getElem?_eq_none (by omega)] at h
  exact absurd h (by simp)

theorem prefix_getElem? (l full : List Event) (h : l <+: full) (k : Nat) (e : Event)
    (hk : l[k]? = some e) : full[k]? = some e := by
  obtain ⟨t, rfl⟩ := h
  rw [List.getElem?_append_left (getElem?_lt_length l k e hk)]
  exact hk

theorem prefix_take (l full : List Event) (h : l <+: full) (k : Nat) (hk : k ≤ l.length) :
    l.take k = full.take k := by
  obtain ⟨t, rfl⟩ := h
  rw [List.take_append_of_le_length hk]

/-- Each operation of a prefix of `full`, with the locks held just before it,
occurs among the points of `full`. -/
theorem point_mem (l full : List Event) (h : l <+: full) (k : Nat) (e : Event)
    (hk : l[k]? = some e) :
    (heldAfter (l.take k), e) ∈ pointsFrom [] full := by
  have hlt := getElem?_lt_length l k e hk
  rw [prefix_take l full h k (by omega)]
  exact pointsFrom_mem full [] k e (prefix_getElem? l full h k e hk)

/-! ### The enqueue block inside the log of `dora_payment` -/

theorem setupLog_no_chainOp : ∀ e ∈ setupLog, e.isChainOp = false := by decide

theorem heldAfter_setupLog_append (l : List Event) : heldAfter (setupLog ++ l) = heldAfter l := by
  simp only [heldAfter, List.foldl_append]
  rfl

/-- A lock operation or enqueue at position `k` of a log of `dora_payment` is
the operation at position `k - 15` of the enqueue block. -/
theorem payment_point (env : Env) (apin : payment_input_t) (k : Nat) (e : Event)
    (hk : (payment_log env apin)[k]? = some e) (hc : e.isChainOp = true) :
    ∃ m, k = setupLog.length + m ∧
      (chain_log false (apin._home_wh_id - 1)
        (env.enqueue .whs (apin._home_wh_id - 1) .pay_upd_wh)
        (env.enqueue .dis (apin._home_wh_id - 1) .pay_upd_dist)
        (env.enqueue .cus (apin._home_wh_id - 1) .pay_upd_cust))[m]? = some e := by
  have h := prefix_getElem? _ _ (payment_log_pfx env apin) k e hk
  by_cases hlt : k < setupLog.length
  · rw [List.getElem?_append_left hlt] at h
    have hmem : e ∈ setupLog := List.getElem?_mem h
    rw [setupLog_no_chainOp e hmem] at hc
    exact absurd hc (by simp)
  · refine ⟨k - setupLog.length, by omega, ?_⟩
    rw [List.getElem?_append_right (by omega)] at h
    exact h

/-- The first `15 + m` operations of a log of `dora_payment` that is at least
that long are the setup followed by the first `m` operations of the enqueue
block. -/
theorem payment_take (env : Env) (apin : payment_input_t) (m : Nat)
    (hm : setupLog.length + m ≤ (payment_log env apin).length) :
    (payment_log env apin).take (setupLog.length + m) =
      setupLog ++ (chain_log false (apin._home_wh_id - 1)
        (env.enqueue .whs (apin._home_wh_id - 1) .pay_upd_wh)
        (env.enqueue .dis (apin._home_wh_id - 1) .pay_upd_dist)
        (env.enqueue .cus (apin._home_wh_id - 1) .pay_upd_cust)).take m := by
  rw [prefix_take _ _ (payment_log_pfx env apin) _ hm, List.take_append]

theorem setupLog_filter_chainOp : setupLog.filter Event.isChainOp = [] := by decide

theorem isChainOp_of_isEnqueue (e : Event) (h : e.isEnqueue = true) : e.isChainOp = true := by
  cases e <;> simp_all [Event.isEnqueue, Event.isChainOp]

theorem chain_key_order (p rw rd rc : Int) (m : Nat) (e : Event)
    (hm : (chain_log false p rw rd rc)[m]? = some e) (he : e.isEnqueue = true) :
    ((chain_log false p rw rd rc).take (m + 1)).filter Event.isChainOp <+:
      [.acquire ⟨.whs, p⟩, .enqueue .whs p .pay_upd_wh rw, .acquire ⟨.dis, p⟩,
       .release ⟨.whs, p⟩, .enqueue .dis p .pay_upd_dist rd, .acquire ⟨.cus, p⟩,
       .release ⟨.dis, p⟩, .enqueue .cus p .pay_upd_cust rc] := by
  have hlt := getElem?_lt_length _ _ _ hm
  by_cases h1 : rw = 0 <;> by_cases h2 : rd = 0 <;> by_cases h3 : rc = 0 <;>
    simp [chain_log, h1, h2, h3] at hlt hm ⊢ <;>
    interval_cases m <;> simp at hm <;> subst hm <;>
    first
      | (simp [Event.isEnqueue] at he; done)
      | simp [Event.isChainOp, List.prefix_iff_eq_take]

theorem chain_key_held (p rw rd rc : Int) (m mj : Nat) (e : Event)
    (hm : (chain_log false p rw rd rc)[mj]? = some e) (he : e.isEnqueue = true)
    (hle : m ≤ mj) :
    heldAfter ((chain_log false p rw rd rc).take (m + 1)) ≠ [] := by
  have hlt := getElem?_lt_length _ _ _ hm
  by_cases h1 : rw = 0 <;> by_cases h2 : rd = 0 <;> by_cases h3 : rc = 0 <;>
    simp [chain_log, h1, h2, h3] at hlt hm ⊢ <;>
    interval_cases mj <;> simp at hm <;> subst hm <;>
    first
      | (simp [Event.isEnqueue] at he; done)
      | (interval_cases m <;> simp [heldAfter, holdStep])

/-! ### The micro-benchmark coordinators in closed form -/

theorem mbench_setup_congr (e1 e2 : Env) (a : Action) (h1 : e1.asserts = e2.asserts)
    (h2 : e1.g_dora = e2.g_dora) (h3 : e1.begin_xct_error = e2.begin_xct_error)
    (h4 : e1.xct = e2.xct) (h5 : e1.get_action a = e2.get_action a) :
    mbench_setup e1 a = mbench_setup e2 a := by
  simp only [mbench_setup, c_assert, W_DO_begin_xct, h1, h2, h3, h4, h5]

theorem mbench_setup_closed : ∀ (a : Action) (as g x c : Bool),
    setupGood (mbSetupLog a) (mbench_setup (envOf as g x c c c) a World.init) = true := by
  intro a
  cases a <;> decide

theorem envOf_get_action (as g x c : Bool) (a : Action) :
    (envOf as g x c c c).get_action a = c := by
  cases a <;> rfl

theorem mbench_setup_cases (env : Env) (a : Action) :
    mbench_setup env a World.init = (.next (), ⟨mbSetupLog a, []⟩) ∨
    ∃ e l, mbench_setup env a World.init = (.stop e, ⟨l, []⟩) ∧ l <+: mbSetupLog a := by
  cases hb : env.begin_xct_error with
  | none =>
    have hc := mbench_setup_congr env
      (envOf env.asserts env.g_dora env.xct (env.get_action a) (env.get_action a)
        (env.get_action a)) a rfl rfl hb rfl (envOf_get_action _ _ _ _ a).symm
    rw [hc]
    rcases setupGood_spec _ _ (mbench_setup_closed a _ _ _ _) with h | ⟨e, l, h1, h2, _⟩
    · exact Or.inl h
    · exact Or.inr ⟨e, l, h1, h2⟩
  | some n =>
    right
    cases ha : env.asserts <;> cases hg : env.g_dora
    · exact ⟨.returned (.sm_error n), [], by
        simp [mbench_setup, bind_eq, Coord.bind, c_assert, W_DO_begin_xct, c_return, halt,
          releases, World.init, ha, hg, hb, pure], List.nil_prefix⟩
    · exact ⟨.returned (.sm_error n), [], by
        simp [mbench_setup, bind_eq, Coord.bind, c_assert, W_DO_begin_xct, c_return, halt,
          releases, World.init, ha, hg, hb, pure], List.nil_prefix⟩
    · exact ⟨.assertion_failed, [], by
        simp [mbench_setup, bind_eq, Coord.bind, c_assert, W_DO_begin_xct, c_return, halt,
          releases, World.init, ha, hg, hb, pure], List.nil_prefix⟩
    · exact ⟨.returned (.sm_error n), [], by
        simp [mbench_setup, bind_eq, Coord.bind, c_assert, W_DO_begin_xct, c_return, halt,
          releases, World.init, ha, hg, hb, pure], List.nil_prefix⟩

theorem mbench_chain_run (env : Env) (t : Table) (a : Action) (p : Int) (l0 : List Event) :
    (mbench_chain env t a p ⟨l0, []⟩).2.log =
      l0 ++ mb_chain_log env.asserts t a p (env.enqueue t p a) := by
  generalize hr : env.enqueue t p a = r
  by_cases h1 : r = 0 <;> cases ha : env.asserts <;>
  simp [mbench_chain, bind_eq, Coord.bind, CRITICAL_SECTION, enqueue, c_assert,
    c_return, leave_scope, halt, releases, mb_chain_log, hr, h1, ha, pure]

theorem mb_chain_log_pfx (as : Bool) (t : Table) (a : Action) (p r : Int) :
    mb_chain_log as t a p r <+: mb_chain_log false t a p r := by
  cases as
  · exact List.prefix_refl _
  · by_cases h1 : r = 0 <;> simp [mb_chain_log, h1, List.prefix_iff_eq_take]

theorem mbench_run_pfx (env : Env) (t : Table) (a : Action) (p : Int) :
    (Coord.bind (mbench_setup env a) (fun _ => mbench_chain env t a p) World.init).2.log <+:
      mbSetupLog a ++ mb_chain_log false t a p (env.enqueue t p a) := by
  rcases mbench_setup_cases env a with h | ⟨e, l, h1, h2⟩
  · simp only [Coord.bind, h]
    rw [mbench_chain_run]
    exact (List.prefix_append_right_inj _).mpr (mb_chain_log_pfx _ _ _ _ _)
  · simp only [Coord.bind, h1]
    exact h2.trans (List.prefix_append _ _)

theorem mbench_cust_log_pfx (env : Env) (whid : Int) :
    mbench_cust_log env whid <+: mbSetupLog .upd_cust_mb ++
      mb_chain_log false .cus .upd_cust_mb (whid - 1) (env.enqueue .cus (whid - 1) .upd_cust_mb) := by
  unfold mbench_cust_log
  rw [dora_mbench_cust_split]
  exact mbench_run_pfx env .cus .upd_cust_mb (whid - 1)

theorem mbench_wh_log_pfx (env : Env) (whid : Int) :
    mbench_wh_log env whid <+: mbSetupLog .upd_wh_mb ++
      mb_chain_log false .whs .upd_wh_mb (whid - 1) (env.enqueue .whs (whid - 1) .upd_wh_mb) := by
  unfold mbench_wh_log
  rw [dora_mbench_wh_split]
  exact mbench_run_pfx env .whs .upd_wh_mb (whid - 1)

theorem payment_points_locked (p rw rd rc : Int) :
    ∀ x ∈ pointsFrom [] (setupLog ++ chain_log false p rw rd rc),
      ∀ t part a r, x.2 = Event.enqueue t part a r → (⟨t, part⟩ : Lock) ∈ x.1 := by
  by_cases h1 : rw = 0 <;> by_cases h2 : rd = 0 <;> by_cases h3 : rc = 0 <;>
    simp [setupLog, chain_log, h1, h2, h3, pointsFrom, holdStep] <;>
    (repeat' apply And.intro) <;> (intros; subst_vars; exact ⟨rfl, rfl⟩)

theorem mbench_points_locked (tb : Table) (ac : Action) (p r : Int) :
    ∀ x ∈ pointsFrom [] (mbSetupLog ac ++ mb_chain_log false tb ac p r),
      ∀ t part a r1, x.2 = Event.enqueue t part a r1 → (⟨t, part⟩ : Lock) ∈ x.1 := by
  by_cases h1 : r = 0 <;>
    simp [mbSetupLog, mb_chain_log, h1, pointsFrom, holdStep] <;>
    (intros; subst_vars; exact ⟨rfl, rfl⟩)

theorem chain_log_all_chainOp (as : Bool) (p rw rd rc : Int) :
    ∀ e ∈ chain_log as p rw rd rc, e.isChainOp = true := by
  by_cases h1 : rw = 0 <;> by_cases h2 : rd = 0 <;> by_cases h3 : rc = 0 <;> cases as <;>
    simp [chain_log, h1, h2, h3, Event.isChainOp]

theorem addedActions_of_chainOps (l : List Event) (r : Rvp)
    (h : ∀ e ∈ l, e.isChainOp = true) : addedActions l r = [] := by
  induction l with
  | nil => rfl
  | cons x xs ih =>
    have hx := h x (List.mem_cons_self _ _)
    have hxs := ih (fun e he => h e (List.mem_cons_of_mem _ he))
    cases x <;> simp_all [addedActions, Event.isChainOp]

theorem queueOf_setupLog_append (l : List Event) (t : Table) (p : Int) :
    queueOf (setupLog ++ l) t p = queueOf l t p := by
  unfold queueOf
  rw [List.filterMap_append]
  rfl

theorem queueOf_nil (t : Table) (p : Int) : queueOf [] t p = [] := rfl

theorem queueOf_cons_enqueue (t1 : Table) (p1 : Int) (a : Action) (rc : Int) (l : List Event)
    (t : Table) (p : Int) :
    queueOf (.enqueue t1 p1 a rc :: l) t p =
      (if t1 = t ∧ p1 = p ∧ rc = 0 then [a] else []) ++ queueOf l t p := by
  unfold queueOf
  rw [List.filterMap_cons]
  split_ifs with h <;> simp [h]

theorem queueOf_cons_acquire (k : Lock) (l : List Event) (t : Table) (p : Int) :
    queueOf (.acquire k :: l) t p = queueOf l t p := rfl

theorem queueOf_cons_release (k : Lock) (l : List Event) (t : Table) (p : Int) :
    queueOf (.release k :: l) t p = queueOf l t p := rfl

theorem chain_fail_key (as : Bool) (p rw rd rc0 : Int) (m : Nat) (t : Table) (part : Int)
    (a : Action) (rc : Int)
    (hm : (chain_log as p rw rd rc0)[m]? = some (.enqueue t part a rc)) (hrc : rc ≠ 0) :
    chain_exit as rw rd rc0 = (if as then .assertion_failed else .returned .de_PROBLEM_ENQUEUE) ∧
    (∀ e ∈ (chain_log as p rw rd rc0).drop (m + 1), e.isEnqueue = false) ∧
    (as = false → heldAfter (chain_log as p rw rd rc0) = []) ∧
    (∀ t1 p1, queueOf (chain_log as p rw rd rc0) t1 p1 =
      queueOf ((chain_log as p rw rd rc0).take m) t1 p1) ∧
    (t = .whs → ∀ t1 p1, queueOf (chain_log as p rw rd rc0) t1 p1 = []) := by
  have hlt := getElem?_lt_length _ _ _ hm
  by_cases h1 : rw = 0 <;> by_cases h2 : rd = 0 <;> by_cases h3 : rc0 = 0 <;> cases as <;>
    simp [chain_log, h1, h2, h3] at hlt hm <;>
    interval_cases m <;> simp at hm <;>
    obtain ⟨rfl, rfl, rfl, rfl⟩ := hm <;>
    simp_all [chain_log, chain_exit, Event.isEnqueue, heldAfter, holdStep, queueOf_nil,
      queueOf_cons_enqueue, queueOf_cons_acquire, queueOf_cons_release]

/-- After an enqueue of the chain that reports failure the log holds only the
release of the lock of that partition, and not even that when asserts are
compiled in. -/
theorem chain_fail_rest (as : Bool) (p rw rd rc0 : Int) (m : Nat) (t : Table) (part : Int)
    (a : Action) (rc : Int)
    (hm : (chain_log as p rw rd rc0)[m]? = some (.enqueue t part a rc)) (hrc : rc ≠ 0) :
    (chain_log as p rw rd rc0).drop (m + 1) = if as then [] else [.release ⟨t, part⟩] := by
  have hlt := getElem?_lt_length _ _ _ hm
  by_cases h1 : rw = 0 <;> by_cases h2 : rd = 0 <;> by_cases h3 : rc0 = 0 <;> cases as <;>
    simp [chain_log, h1, h2, h3] at hlt hm <;>
    interval_cases m <;> simp at hm <;>
    obtain ⟨rfl, rfl, rfl, rfl⟩ := hm <;>
    simp_all [chain_log]

/-! ### Two concurrent coordinators: reachable systems and renaming -/

theorem setTodo_measure {L : Type} (s : System L) (t : Tid) (op : Op L) (rest : List (Op L))
    (h : s.todo t = op :: rest) : (s.setTodo t rest).measure + 1 = s.measure := by
  cases t <;> simp_all [System.todo, System.setTodo, System.measure] <;> omega

theorem step_measure {L : Type} [DecidableEq L] (s : System L) (t : Tid) :
    s.step t = s ∨ (s.step t).measure + 1 = s.measure := by
  unfold System.step
  split
  · exact Or.inl rfl
  · rename_i op rest h
    have hm := setTodo_measure s t op rest h
    cases op with
    | acquire l =>
      simp only [System.exec]
      split
      · exact Or.inl rfl
      · exact Or.inr hm
    | release l => exact Or.inr hm
    | enqueue q ok => exact Or.inr hm

theorem mem_collect_of_mem {L : Type} [DecidableEq L] (n : Nat) (R : List (System L)) (s : System L) (h : s ∈ R) :
    s ∈ collect n R := by
  cases n with
  | zero => exact h
  | succ n => exact List.mem_append_left _ h

theorem run_mem_collect {L : Type} [DecidableEq L] (sched : List Tid) :
    ∀ (n : Nat) (R : List (System L)) (s : System L), s ∈ R → s.measure ≤ n →
      s.run sched ∈ collect n R := by
  induction sched with
  | nil =>
    intro n R s hs _
    exact mem_collect_of_mem n R s hs
  | cons t ts ih =>
    intro n R s hs hn
    have hrun : s.run (t :: ts) = (s.step t).run ts := rfl
    rw [hrun]
    rcases step_measure s t with h | h
    · rw [h]
      exact ih n R s hs hn
    · cases n with
      | zero => omega
      | succ n =>
        have hne : s.step t ≠ s := by
          intro hc
          rw [hc] at h
          omega
        have hmem : s.step t ∈ succs R := by
          unfold succs
          rw [List.mem_dedup, List.mem_flatMap]
          refine ⟨s, hs, ?_⟩
          rw [List.mem_filter]
          refine ⟨?_, by simpa using hne⟩
          cases t <;> simp
        exact List.mem_append_right _ (ih n (succs R) _ hmem (by omega))

theorem run_mem_reachable {L : Type} [DecidableEq L] (s0 : System L) (sched : List Tid) : s0.run sched ∈ reachable s0 :=
  run_mem_collect sched _ _ s0 (List.mem_singleton_self s0) (Nat.le_refl _)

theorem map_step {L M : Type} [DecidableEq L] [DecidableEq M] (f : L → M) (hf : Function.Injective f) (s : System L) (t : Tid) :
    (s.map f).step t = (s.step t).map f := by
  have hany : ∀ l, (s.locks.map (Prod.map f id)).any (fun x => decide (x.1 = f l)) =
      s.locks.any (fun x => decide (x.1 = l)) := by
    intro l
    induction s.locks with
    | nil => rfl
    | cons x xs ih => simp [List.any_cons, ih, hf.eq_iff]
  have hfil : ∀ l t, (s.locks.map (Prod.map f id)).filter (fun x => decide (x ≠ (f l, t))) =
      (s.locks.filter (fun x => decide (x ≠ (l, t)))).map (Prod.map f id) := by
    intro l t
    rw [List.filter_map]
    congr 1
    congr 1
    funext x
    rcases x with ⟨a, b⟩
    simp [hf.eq_iff]
  cases t
  · rcases s with ⟨t1, t2, lk, qs⟩
    cases t1 with
    | nil => rfl
    | cons op rest =>
      cases op with
      | acquire l =>
        have := hany l
        simp only [System.map, System.step, System.todo, System.exec, System.setTodo,
          List.map_cons, Op.map] at this ⊢
        rw [this]
        split <;> simp [System.map, Op.map]
      | release l =>
        have := hfil l .T1
        simp only [System.map, System.step, System.todo, System.exec, System.setTodo,
          List.map_cons, Op.map] at this ⊢
        rw [this]
      | enqueue q ok =>
        cases ok <;>
        simp [System.map, System.step, System.todo, System.exec, System.setTodo, Op.map]
  · rcases s with ⟨t1, t2, lk, qs⟩
    cases t2 with
    | nil => rfl
    | cons op rest =>
      cases op with
      | acquire l =>
        have := hany l
        simp only [System.map, System.step, System.todo, System.exec, System.setTodo,
          List.map_cons, Op.map] at this ⊢
        rw [this]
        split <;> simp [System.map, Op.map]
      | release l =>
        have := hfil l .T2
        simp only [System.map, System.step, System.todo, System.exec, System.setTodo,
          List.map_cons, Op.map] at this ⊢
        rw [this]
      | enqueue q ok =>
        cases ok <;>
        simp [System.map, System.step, System.todo, System.exec, System.setTodo, Op.map]

theorem map_run {L M : Type} [DecidableEq L] [DecidableEq M] (f : L → M) (hf : Function.Injective f) (sched : List Tid) (s : System L) :
    (s.map f).run sched = (s.run sched).map f := by
  induction sched generalizing s with
  | nil => rfl
  | cons t ts ih =>
    have h1 : (s.map f).run (t :: ts) = ((s.map f).step t).run ts := rfl
    have h2 : s.run (t :: ts) = (s.step t).run ts := rfl
    rw [h1, h2, map_step f hf, ih]

theorem enqOrder_map {L M : Type} [DecidableEq L] [DecidableEq M] (f : L → M) (hf : Function.Injective f) (s : System L) (q : L) :
    enqOrder (s.map f) (f q) = enqOrder s q := by
  unfold enqOrder System.map
  simp only
  rw [List.filter_map, List.map_map]
  have : (fun x : M × Tid => decide (x.1 = f q)) ∘ Prod.map f id =
      fun x : L × Tid => decide (x.1 = q) := by
    funext x
    simp [hf.eq_iff]
  rw [this]
  congr 1

theorem mem_todo_map {L M : Type} (f : L → M) (hf : Function.Injective f) (l : List (Op L)) (q : L) :
    Op.enqueue (f q) true ∈ l.map (Op.map f) ↔ Op.enqueue q true ∈ l := by
  rw [List.mem_map]
  constructor
  · rintro ⟨op, hop, he⟩
    cases op <;> simp [Op.map] at he
    obtain ⟨h1, h2⟩ := he
    rw [← hf h1, ← h2]
    exact hop
  · intro h
    exact ⟨_, h, rfl⟩

theorem Kept_map {L M : Type} [DecidableEq L] [DecidableEq M] (f : L → M)
    (hf : Function.Injective f) (p1 p2 : List (Op L)) (s : System L) (qa qb : L)
    (h : Kept p1 p2 s qa qb) :
    Kept (p1.map (Op.map f)) (p2.map (Op.map f)) (s.map f) (f qa) (f qb) := by
  unfold Kept at h ⊢
  rw [enqOrder_map f hf, enqOrder_map f hf]
  intro hq
  obtain ⟨h1, h2, h3⟩ := h hq
  refine ⟨h1, ?_, ?_⟩
  · intro a b
    show Op.enqueue (f qb) true ∉ s.todo1.map (Op.map f)
    rw [mem_todo_map f hf]
    exact h2 a b
  · intro a b c d
    have a1 : s.todo1 = [] := List.map_eq_nil_iff.mp a
    have b1 : s.todo2 = [] := List.map_eq_nil_iff.mp b
    exact h3 a1 b1 ((mem_todo_map f hf _ _).mp c) ((mem_todo_map f hf _ _).mp d)

set_option maxRecDepth 100000 in
/-- Every system that two runs of `dora_payment` on the same partitions can
reach keeps the warehouse order in the district and customer queues. -/
theorem all_reachable_kept : ∀ p1 ∈ absPrograms, ∀ p2 ∈ absPrograms,
    ∀ s ∈ reachable (System.init p1 p2),
      Kept p1 p2 s Table.whs Table.dis ∧ Kept p1 p2 s Table.whs Table.cus := by
  decide!

theorem absChain_mem : ∀ as okw okd okc : Bool, absChain as okw okd okc ∈ absPrograms := by
  decide

theorem sharedOps_chain_log (as : Bool) (p rw rd rc : Int) :
    sharedOps (chain_log as p rw rd rc) =
      (absChain as (decide (rw = 0)) (decide (rd = 0)) (decide (rc = 0))).map
        (Op.map (fun t => (⟨t, p⟩ : Lock))) := by
  by_cases h1 : rw = 0 <;> by_cases h2 : rd = 0 <;> by_cases h3 : rc = 0 <;> cases as <;>
    simp [chain_log, absChain, sharedOps, opOf, Op.map, h1, h2, h3]

theorem sharedOps_setupLog : sharedOps setupLog = [] := by decide

/-- The shared-state operations of a run of `dora_payment` are one of the
sequences of `absPrograms`, on the partitions of the home warehouse. -/
theorem sharedOps_payment (env : Env) (apin : payment_input_t) :
    ∃ prog ∈ absPrograms, sharedOps (payment_log env apin) =
      prog.map (Op.map (fun t => (⟨t, apin._home_wh_id - 1⟩ : Lock))) := by
  rcases payment_run_cases env apin with ⟨⟨tl, htl⟩, _⟩ | ⟨hl, _⟩
  · refine ⟨[], by decide, ?_⟩
    have h := sharedOps_setupLog
    rw [← htl] at h
    unfold sharedOps at h ⊢
    rw [List.filterMap_append] at h
    exact (List.append_eq_nil.mp h).1
  · refine ⟨_, absChain_mem env.asserts
      (decide (env.enqueue .whs (apin._home_wh_id - 1) .pay_upd_wh = 0))
      (decide (env.enqueue .dis (apin._home_wh_id - 1) .pay_upd_dist = 0))
      (decide (env.enqueue .cus (apin._home_wh_id - 1) .pay_upd_cust = 0)), ?_⟩
    rw [hl, ← sharedOps_chain_log]
    unfold sharedOps
    rw [List.filterMap_append]
    have h := sharedOps_setupLog
    unfold sharedOps at h
    rw [h, List.nil_append]

theorem lock_mk_injective (p : Int) : Function.Injective (fun t => (⟨t, p⟩ : Lock)) := by
  intro a b h
  simpa using h

end tpcc

namespace tpcc

/-- C3: in `dora_payment` the coordinator holds at most two partition enqueue
locks at every point of its run: after any number `k` of its operations, in
every environment (whatever the enqueues return) and for every input. -/
theorem C3_payment_holds_at_most_two_locks (env : Env) (apin : payment_input_t) (k : Nat) :
    (heldAfter ((payment_log env apin).take k)).length ≤ 2 := by
  have key : ∀ (p rw rd rc : Int),
      ∀ held ∈ List.scanl holdStep [] (setupLog ++ chain_log false p rw rd rc),
        held.length ≤ 2 := by
    intro p rw rd rc
    by_cases h1 : rw = 0 <;> by_cases h2 : rd = 0 <;> by_cases h3 : rc = 0 <;>
      simp [setupLog, chain_log, h1, h2, h3, List.scanl, holdStep]
  exact key _ _ _ _ _ (heldAfter_take_mem _ _ (payment_log_pfx env apin) k)

/-- C4: the enqueue chain of `dora_payment` is hand-over-hand. (a) In every
run, up to each enqueue the lock operations and enqueues performed so far are
a prefix of acquire(wh), enqueue(wh), acquire(dis), release(wh), enqueue(dis),
acquire(cus), release(dis), enqueue(cus): the next lock is acquired before the
previous one is released. (b) A run that returns `RCOK` performs exactly these
eight, all enqueues returning 0, and then releases the customer lock. (c) In
every run, after each operation from the first lock acquisition up to the last
enqueue the coordinator holds at least one enqueue lock. -/
theorem C4_payment_hand_over_hand (env : Env) (apin : payment_input_t) :
    (∀ k e, (payment_log env apin)[k]? = some e → e.isEnqueue = true →
      ((payment_log env apin).take (k + 1)).filter Event.isChainOp <+:
        [.acquire ⟨.whs, apin._home_wh_id - 1⟩,
         .enqueue .whs (apin._home_wh_id - 1) .pay_upd_wh
           (env.enqueue .whs (apin._home_wh_id - 1) .pay_upd_wh),
         .acquire ⟨.dis, apin._home_wh_id - 1⟩,
         .release ⟨.whs, apin._home_wh_id - 1⟩,
         .enqueue .dis (apin._home_wh_id - 1) .pay_upd_dist
           (env.enqueue .dis (apin._home_wh_id - 1) .pay_upd_dist),
         .acquire ⟨.cus, apin._home_wh_id - 1⟩,
         .release ⟨.dis, apin._home_wh_id - 1⟩,
         .enqueue .cus (apin._home_wh_id - 1) .pay_upd_cust
           (env.enqueue .cus (apin._home_wh_id - 1) .pay_upd_cust)]) ∧
    (payment_exit env apin = .returned .RCOK →
      (payment_log env apin).filter Event.isChainOp =
        [.acquire ⟨.whs, apin._home_wh_id - 1⟩,
         .enqueue .whs (apin._home_wh_id - 1) .pay_upd_wh 0,
         .acquire ⟨.dis, apin._home_wh_id - 1⟩,
         .release ⟨.whs, apin._home_wh_id - 1⟩,
         .enqueue .dis (apin._home_wh_id - 1) .pay_upd_dist 0,
         .acquire ⟨.cus, apin._home_wh_id - 1⟩,
         .release ⟨.dis, apin._home_wh_id - 1⟩,
         .enqueue .cus (apin._home_wh_id - 1) .pay_upd_cust 0,
         .release ⟨.cus, apin._home_wh_id - 1⟩]) ∧
    (∀ i j k l e, (payment_log env apin)[i]? = some (.acquire l) →
      (payment_log env apin)[j]? = some e → e.isEnqueue = true → i ≤ k → k ≤ j →
      heldAfter ((payment_log env apin).take (k + 1)) ≠ []) := by
  refine ⟨?_, ?_, ?_⟩
  · intro k e hk he
    obtain ⟨m, rfl, hm⟩ := payment_point env apin k e hk (isChainOp_of_isEnqueue e he)
    have hlen := getElem?_lt_length _ _ _ hk
    rw [Nat.add_assoc, payment_take env apin (m + 1) (by omega), List.filter_append,
      setupLog_filter_chainOp, List.nil_append]
    exact chain_key_order _ _ _ _ m e hm he
  · intro hx
    rcases payment_run_cases env apin with ⟨_, h | h | ⟨n, h⟩⟩ | ⟨hl, he⟩
    · rw [h] at hx; exact absurd hx (by simp)
    · rw [h] at hx; exact absurd hx (by simp)
    · rw [h] at hx; exact absurd hx (by simp)
    · rw [he] at hx
      rw [hl, List.filter_append, setupLog_filter_chainOp, List.nil_append]
      generalize env.enqueue .whs (apin._home_wh_id - 1) .pay_upd_wh = rw at hx ⊢
      generalize env.enqueue .dis (apin._home_wh_id - 1) .pay_upd_dist = rd at hx ⊢
      generalize env.enqueue .cus (apin._home_wh_id - 1) .pay_upd_cust = rc at hx ⊢
      by_cases h1 : rw = 0 <;> by_cases h2 : rd = 0 <;> by_cases h3 : rc = 0 <;>
        cases ha : env.asserts <;>
        simp [chain_exit, chain_log, h1, h2, h3, ha, Event.isChainOp] at hx ⊢
  · intro i j k l e hi hj he hik hkj
    obtain ⟨mi, rfl, _⟩ := payment_point env apin i _ hi rfl
    obtain ⟨mj, rfl, hmj⟩ := payment_point env apin j e hj (isChainOp_of_isEnqueue e he)
    have hlen := getElem?_lt_length _ _ _ hj
    obtain ⟨m, rfl⟩ : ∃ m, k = setupLog.length + m := ⟨k - setupLog.length, by omega⟩
    rw [Nat.add_assoc, payment_take env apin (m + 1) (by omega), heldAfter_setupLog_append]
    exact chain_key_held _ _ _ _ m mj e hmj he (by omega)

/-- C4 at a concrete run: in the environment where nothing goes wrong the run for
home warehouse 1 returns `RCOK` and its lock operations and enqueues are the
hand-over-hand sequence on partition 0. -/
theorem C4_payment_hand_over_hand_witness :
    payment_exit envAllOk ⟨1⟩ = .returned .RCOK ∧
    (payment_log envAllOk ⟨1⟩).filter Event.isChainOp =
      [.acquire ⟨.whs, 0⟩, .enqueue .whs 0 .pay_upd_wh 0, .acquire ⟨.dis, 0⟩,
       .release ⟨.whs, 0⟩, .enqueue .dis 0 .pay_upd_dist 0, .acquire ⟨.cus, 0⟩,
       .release ⟨.dis, 0⟩, .enqueue .cus 0 .pay_upd_cust 0, .release ⟨.cus, 0⟩] :=
  ⟨by decide, (C4_payment_hand_over_hand envAllOk ⟨1⟩).2.1 (by decide)⟩

/-- C5: every enqueue performed by `dora_payment`, `dora_mbench_cust` and
`dora_mbench_wh` into partition `part` of table `t` happens while the
coordinator holds the enqueue lock of partition `part` of that same table:
whenever operation `k` of the log is such an enqueue, the lock is among the
locks held after the first `k` operations. -/
theorem C5_enqueue_under_partition_lock (env : Env) (apin : payment_input_t) (whid : Int)
    (k : Nat) (t : Table) (part : Int) (a : Action) (rc : Int) :
    ((payment_log env apin)[k]? = some (.enqueue t part a rc) →
      (⟨t, part⟩ : Lock) ∈ heldAfter ((payment_log env apin).take k)) ∧
    ((mbench_cust_log env whid)[k]? = some (.enqueue t part a rc) →
      (⟨t, part⟩ : Lock) ∈ heldAfter ((mbench_cust_log env whid).take k)) ∧
    ((mbench_wh_log env whid)[k]? = some (.enqueue t part a rc) →
      (⟨t, part⟩ : Lock) ∈ heldAfter ((mbench_wh_log env whid).take k)) := by
  refine ⟨?_, ?_, ?_⟩
  · intro hk
    exact payment_points_locked _ _ _ _ _
      (point_mem _ _ (payment_log_pfx env apin) k _ hk) t part a rc rfl
  · intro hk
    exact mbench_points_locked _ _ _ _ _
      (point_mem _ _ (mbench_cust_log_pfx env whid) k _ hk) t part a rc rfl
  · intro hk
    exact mbench_points_locked _ _ _ _ _
      (point_mem _ _ (mbench_wh_log_pfx env whid) k _ hk) t part a rc rfl

/-- C5 at concrete runs: with nothing going wrong, operation 19 of
`dora_payment` for home warehouse 1 is the district enqueue and operation 7 of
each micro-benchmark coordinator for warehouse 1 is its enqueue; the lock of
the partition enqueued into is held at each of them. -/
theorem C5_enqueue_under_partition_lock_witness :
    ((payment_log envAllOk ⟨1⟩)[19]? = some (.enqueue .dis 0 .pay_upd_dist 0) ∧
      (⟨.dis, 0⟩ : Lock) ∈ heldAfter ((payment_log envAllOk ⟨1⟩).take 19)) ∧
    ((mbench_cust_log envAllOk 1)[7]? = some (.enqueue .cus 0 .upd_cust_mb 0) ∧
      (⟨.cus, 0⟩ : Lock) ∈ heldAfter ((mbench_cust_log envAllOk 1).take 7)) ∧
    ((mbench_wh_log envAllOk 1)[7]? = some (.enqueue .whs 0 .upd_wh_mb 0) ∧
      (⟨.whs, 0⟩ : Lock) ∈ heldAfter ((mbench_wh_log envAllOk 1).take 7)) :=
  ⟨⟨by decide, (C5_enqueue_under_partition_lock envAllOk ⟨1⟩ 1 19 .dis 0 .pay_upd_dist 0).1
      (by decide)⟩,
   ⟨by decide, (C5_enqueue_under_partition_lock envAllOk ⟨1⟩ 1 7 .cus 0 .upd_cust_mb 0).2.1
      (by decide)⟩,
   ⟨by decide, (C5_enqueue_under_partition_lock envAllOk ⟨1⟩ 1 7 .whs 0 .upd_wh_mb 0).2.2
      (by decide)⟩⟩

/-- C6: (1) in every run of `dora_payment`, at every lock operation or enqueue
(so at the first lock acquisition and at the first enqueue) the `add_action`
calls for the customer, district and warehouse actions have all been made on
the RVP, in that order, and every later operation of the run is a lock
operation or an enqueue. (2) Whenever a generator defined by
`DEFINE_DORA_ACTION_GEN_FUNC` returns an action, it is the borrowed action and
it has been registered with the RVP by `add_action` exactly once, as the last
operation before the return; and the generator does return when the cache
hands out an object and the RVP and the cache pointer are non-null. -/
theorem C6_add_action_before_enqueue (env : Env) (apin : payment_input_t) :
    (∀ k e, (payment_log env apin)[k]? = some e → e.isChainOp = true →
      addedActions ((payment_log env apin).take k) .midway_pay_rvp =
        [.pay_upd_cust, .pay_upd_dist, .pay_upd_wh] ∧
      ∀ j e1, k ≤ j → (payment_log env apin)[j]? = some e1 → e1.isChainOp = true) ∧
    (∀ (cls : ActionClass) (a : Action) (r : Rvp) (borrowed prvp pc : Bool)
        (x : Action) (w : World),
      DEFINE_DORA_ACTION_GEN_FUNC env cls a r borrowed prvp pc World.init = (.next x, w) →
      x = a ∧ w.log.count (.add_action r a) = 1 ∧ addedActions w.log r = [a] ∧
        w.log.getLast? = some (.add_action r a)) ∧
    (∀ (cls : ActionClass) (a : Action) (r : Rvp),
      ∃ w, DEFINE_DORA_ACTION_GEN_FUNC env cls a r true true true World.init = (.next a, w)) := by
  refine ⟨?_, ?_, ?_⟩
  · intro k e hk hc
    obtain ⟨m, rfl, hm⟩ := payment_point env apin k e hk hc
    have hlen := getElem?_lt_length _ _ _ hk
    constructor
    · rw [payment_take env apin m (by omega)]
      unfold addedActions
      rw [List.filterMap_append]
      have h2 := addedActions_of_chainOps
        ((chain_log false (apin._home_wh_id - 1)
          (env.enqueue .whs (apin._home_wh_id - 1) .pay_upd_wh)
          (env.enqueue .dis (apin._home_wh_id - 1) .pay_upd_dist)
          (env.enqueue .cus (apin._home_wh_id - 1) .pay_upd_cust)).take m) .midway_pay_rvp
        (fun e he => chain_log_all_chainOp _ _ _ _ _ e (List.mem_of_mem_take he))
      unfold addedActions at h2
      rw [h2]
      rfl
    · intro j e1 hj hj1
      have h := prefix_getElem? _ _ (payment_log_pfx env apin) j e1 hj1
      rw [List.getElem?_append_right (by omega)] at h
      exact chain_log_all_chainOp _ _ _ _ _ e1 (List.getElem?_mem h)
  · intro cls a r borrowed prvp pc x w h
    cases ha : env.asserts <;> cases cls <;> cases borrowed <;> cases prvp <;> cases pc <;>
      simp [DEFINE_DORA_ACTION_GEN_FUNC, action_set, bind_eq, Coord.bind, c_assert, emit,
        deref, halt, World.init, ha, pure] at h <;>
      obtain ⟨rfl, rfl⟩ := h <;>
      simp [addedActions]
  · intro cls a r
    cases ha : env.asserts <;> cases cls <;>
      simp [DEFINE_DORA_ACTION_GEN_FUNC, action_set, bind_eq, Coord.bind, c_assert, emit,
        deref, halt, World.init, ha, pure]

/-- C6 at a concrete run: with nothing going wrong, operation 15 of
`dora_payment` for home warehouse 1 is the first lock acquisition, and the
three actions are registered with the RVP before it. -/
theorem C6_add_action_before_enqueue_witness :
    (payment_log envAllOk ⟨1⟩)[15]? = some (.acquire ⟨.whs, 0⟩) ∧
    addedActions ((payment_log envAllOk ⟨1⟩).take 15) .midway_pay_rvp =
      [.pay_upd_cust, .pay_upd_dist, .pay_upd_wh] :=
  ⟨by decide,
   ((C6_add_action_before_enqueue envAllOk ⟨1⟩).1 15 (.acquire ⟨.whs, 0⟩)
      (by decide) (by decide)).1⟩

/-- C8 as stated fails: in the environment without asserts where the district
enqueue fails, `dora_payment` for home warehouse 1 logs the failing enqueue
and returns `de_PROBLEM_ENQUEUE`, yet the warehouse action enqueued before the
failure is still in the queue of warehouse partition 0: it is not the case
that no action of the transaction is left enqueued. With asserts compiled in,
the same failure ends the run in the failing `assert(0)` and no error is
returned to the caller. -/
theorem C8_counterexample :
    Event.enqueue .dis 0 .pay_upd_dist 1 ∈ payment_log envDisFails ⟨1⟩ ∧
    payment_exit envDisFails ⟨1⟩ = .returned .de_PROBLEM_ENQUEUE ∧
    queueOf (payment_log envDisFails ⟨1⟩) .whs 0 = [.pay_upd_wh] ∧
    ¬ (∀ t part, queueOf (payment_log envDisFails ⟨1⟩) t part = []) ∧
    Event.enqueue .dis 0 .pay_upd_dist 1 ∈ payment_log envDisFailsDebug ⟨1⟩ ∧
    payment_exit envDisFailsDebug ⟨1⟩ = .assertion_failed := by
  refine ⟨by decide, by decide, by decide, ?_, by decide, by decide⟩
  intro h
  exact absurd (h .whs 0) (by decide)

/-- C8, amended: when operation `k` of a run of `dora_payment` is an enqueue
that reports failure (returns non-zero), then the run ends at once: the only
operation after the failing enqueue is the release of the enqueue lock of
that partition when asserts are compiled out, and there is none when they
are compiled in. The run ends by returning `de_PROBLEM_ENQUEUE` to the caller
when asserts are compiled out, and by the failing `assert(0)` when they are
compiled in; no operation after the failing one is an enqueue; a run that
returns has released all its enqueue locks; and when the failing enqueue is
the first one (warehouse) no action of the transaction is in any queue. -/
theorem C8_payment_enqueue_failure (env : Env) (apin : payment_input_t) (k : Nat)
    (t : Table) (part : Int) (a : Action) (rc : Int)
    (hk : (payment_log env apin)[k]? = some (.enqueue t part a rc)) (hrc : rc ≠ 0) :
    payment_exit env apin =
      (if env.asserts then .assertion_failed else .returned .de_PROBLEM_ENQUEUE) ∧
    (payment_log env apin).drop (k + 1) =
      (if env.asserts then [] else [.release ⟨t, part⟩]) ∧
    (∀ e ∈ (payment_log env apin).drop (k + 1), e.isEnqueue = false) ∧
    (env.asserts = false → heldAfter (payment_log env apin) = []) ∧
    (t = .whs → ∀ t1 p1, queueOf (payment_log env apin) t1 p1 = []) := by
  rcases payment_run_cases env apin with ⟨hp, _⟩ | ⟨hl, he⟩
  · have hmem := hp.subset (List.getElem?_mem hk)
    exact absurd (setupLog_no_chainOp _ hmem) (by simp [Event.isChainOp])
  · rw [hl] at hk ⊢
    have hge : setupLog.length ≤ k := by
      by_contra hc
      rw [List.getElem?_append_left (by omega)] at hk
      exact absurd (setupLog_no_chainOp _ (List.getElem?_mem hk)) (by simp [Event.isChainOp])
    rw [List.getElem?_append_right hge] at hk
    obtain ⟨m, rfl⟩ : ∃ m, k = setupLog.length + m := ⟨k - setupLog.length, by omega⟩
    rw [Nat.add_sub_cancel_left] at hk
    obtain ⟨k1, k2, k3, _, k5⟩ := chain_fail_key _ _ _ _ _ m t part a rc hk hrc
    have k6 := chain_fail_rest _ _ _ _ _ m t part a rc hk hrc
    refine ⟨he.trans k1, ?_, ?_, ?_, ?_⟩
    · rw [Nat.add_assoc, List.drop_append]
      exact k6
    · rw [Nat.add_assoc, List.drop_append]
      exact k2
    · rw [heldAfter_setupLog_append]
      exact k3
    · intro ht t1 p1
      rw [queueOf_setupLog_append]
      exact k5 ht t1 p1

/-- C8 amended, at a concrete run: without asserts and with a failing district
enqueue, operation 19 of `dora_payment` for home warehouse 1 is the failing
enqueue; the only operation after it is the release of the district lock,
the run returns `de_PROBLEM_ENQUEUE` and holds no lock at its end. -/
theorem C8_payment_enqueue_failure_witness :
    (payment_log envDisFails ⟨1⟩)[19]? = some (.enqueue .dis 0 .pay_upd_dist 1) ∧
    payment_exit envDisFails ⟨1⟩ = .returned .de_PROBLEM_ENQUEUE ∧
    (payment_log envDisFails ⟨1⟩).drop 20 = [.release ⟨.dis, 0⟩] ∧
    heldAfter (payment_log envDisFails ⟨1⟩) = [] :=
  ⟨by decide,
   (C8_payment_enqueue_failure envDisFails ⟨1⟩ 19 .dis 0 .pay_upd_dist 1
      (by decide) (by decide)).1,
   (C8_payment_enqueue_failure envDisFails ⟨1⟩ 19 .dis 0 .pay_upd_dist 1
      (by decide) (by decide)).2.1,
   (C8_payment_enqueue_failure envDisFails ⟨1⟩ 19 .dis 0 .pay_upd_dist 1
      (by decide) (by decide)).2.2.2.1 rfl⟩

/-- C7: two concurrent invocations T1 and T2 of `dora_payment` with the same
home warehouse, in any environments and under any schedule (an acquire of a
held lock blocks, so every interleaving respects mutual exclusion). If T1's
action is in the queue of the warehouse partition before T2's, then in the
district and in the customer partition: whenever both have an action in the
queue, T1's is before T2's; T2's action is never in the queue while a
successful enqueue of T1 into it is still to come; and once both invocations
have finished and both enqueue there successfully, the queue holds T1's
action before T2's. -/
theorem C7_payment_enqueue_order (env1 env2 : Env) (apin1 apin2 : payment_input_t)
    (hwh : apin1._home_wh_id = apin2._home_wh_id) (sched : List Tid)
    (tb : Table) (htb : tb = .dis ∨ tb = .cus) (s : System Lock)
    (hs : s = (payment_system env1 apin1 env2 apin2).run sched)
    (hord : enqOrder s ⟨.whs, apin1._home_wh_id - 1⟩ = [.T1, .T2]) :
    (Tid.T1 ∈ enqOrder s ⟨tb, apin1._home_wh_id - 1⟩ →
      Tid.T2 ∈ enqOrder s ⟨tb, apin1._home_wh_id - 1⟩ →
      enqOrder s ⟨tb, apin1._home_wh_id - 1⟩ = [.T1, .T2]) ∧
    (Tid.T2 ∈ enqOrder s ⟨tb, apin1._home_wh_id - 1⟩ →
      Tid.T1 ∉ enqOrder s ⟨tb, apin1._home_wh_id - 1⟩ →
      Op.enqueue ⟨tb, apin1._home_wh_id - 1⟩ true ∉ s.todo1) ∧
    (s.todo1 = [] → s.todo2 = [] →
      Op.enqueue ⟨tb, apin1._home_wh_id - 1⟩ true ∈ sharedOps (payment_log env1 apin1) →
      Op.enqueue ⟨tb, apin1._home_wh_id - 1⟩ true ∈ sharedOps (payment_log env2 apin2) →
      enqOrder s ⟨tb, apin1._home_wh_id - 1⟩ = [.T1, .T2]) := by
  obtain ⟨P1, hP1, e1⟩ := sharedOps_payment env1 apin1
  obtain ⟨P2, hP2, e2⟩ := sharedOps_payment env2 apin2
  rw [← hwh] at e2
  have hinj := lock_mk_injective (apin1._home_wh_id - 1)
  have hsys : payment_system env1 apin1 env2 apin2 =
      (System.init P1 P2).map (fun t => (⟨t, apin1._home_wh_id - 1⟩ : Lock)) := by
    unfold payment_system
    rw [e1, e2]
    rfl
  rw [hsys, map_run _ hinj] at hs
  obtain ⟨kd, kc⟩ := all_reachable_kept P1 hP1 P2 hP2 _
    (run_mem_reachable (System.init P1 P2) sched)
  have kd1 := Kept_map _ hinj _ _ _ _ _ kd
  have kc1 := Kept_map _ hinj _ _ _ _ _ kc
  rw [← hs, ← e1, ← e2] at kd1 kc1
  rcases htb with rfl | rfl
  · exact kd1 hord
  · exact kc1 hord

/-- C7 at a concrete interleaving: two invocations for home warehouse 1 with
nothing going wrong, T1 entering the warehouse partition first and T2
following it hand over hand (one step of T2 is blocked on the district
lock): T1's action is before T2's in the warehouse queue and in the district
queue of partition 0. -/
theorem C7_payment_enqueue_order_witness :
    enqOrder ((payment_system envAllOk ⟨1⟩ envAllOk ⟨1⟩).run
      [.T1, .T1, .T1, .T1, .T2, .T2, .T2, .T1, .T1, .T1, .T2, .T2, .T2, .T1, .T1,
       .T2, .T2, .T2, .T2]) ⟨.whs, 0⟩ = [.T1, .T2] ∧
    enqOrder ((payment_system envAllOk ⟨1⟩ envAllOk ⟨1⟩).run
      [.T1, .T1, .T1, .T1, .T2, .T2, .T2, .T1, .T1, .T1, .T2, .T2, .T2, .T1, .T1,
       .T2, .T2, .T2, .T2]) ⟨.dis, 0⟩ = [.T1, .T2] :=
  ⟨by decide,
   (C7_payment_enqueue_order envAllOk envAllOk ⟨1⟩ ⟨1⟩ rfl
      [.T1, .T1, .T1, .T1, .T2, .T2, .T2, .T1, .T1, .T1, .T2, .T2, .T2, .T1, .T1,
       .T2, .T2, .T2, .T2] .dis (Or.inl rfl) _ rfl (by decide)).1 (by decide) (by decide)⟩

end tpcc

namespace dora

/-- C1: for every pair (held, requested) of lock modes the entry
`DoraLockModeMatrix[held][requested]` is 1 exactly when the compatibility
table of the specification says yes (and it is 0 otherwise): every pair with
NoLock and the pair (Shared, Shared) are compatible, (Shared, Excl),
(Excl, Shared) and (Excl, Excl) are not. -/
theorem C1_matrix_matches_spec_table (held requested : eDoraLockMode) :
    (DoraLockModeMatrix_at held requested = 1 ↔ specCompatible held requested = true) ∧
    (DoraLockModeMatrix_at held requested = 0 ↔ specCompatible held requested = false) ∧
    (specCompatible held requested = true ↔
      (held = .DL_CC_NOLOCK ∨ requested = .DL_CC_NOLOCK ∨
        (held = .DL_CC_SHARED ∧ requested = .DL_CC_SHARED))) := by
  cases held <;> cases requested <;> decide

/-- C2: the lock compatibility matrix is symmetric:
`DoraLockModeMatrix[m1][m2] = DoraLockModeMatrix[m2][m1]` for all modes. -/
theorem C2_matrix_symmetric (m1 m2 : eDoraLockMode) :
    DoraLockModeMatrix_at m1 m2 = DoraLockModeMatrix_at m2 m1 := by
  cases m1 <;> cases m2 <;> rfl

/-- C9: when a midway RVP whose `run()` starts with
`CHECK_MIDWAY_RVP_ABORTED` finds its transaction aborted (`isAborted()` is
true), the calls it makes are exactly: abort the next RVP, run it (it is
marked aborted when its `run()` executes), notify, give back, in this order;
`run()` of the midway RVP returns the result of that run, whatever it is
(error or not), and none of the calls of the rest of the body, which would
generate and enqueue the next wave, is made. -/
theorem C9_midway_rvp_aborted (aborted0 : Bool) (run : Bool → w_rc_t)
    (rest : List RvpCall × w_rc_t) :
    midway_run true aborted0 run rest =
      ([.abort, .run true, .notify, .giveback], run true) ∧
    (∀ op, RvpCall.next_wave op ∉ (midway_run true aborted0 run rest).1) ∧
    midway_run false aborted0 run rest = rest := by
  refine ⟨?_, ?_, ?_⟩
  · simp [midway_run, CHECK_MIDWAY_RVP_ABORTED]
  · intro op
    simp [midway_run, CHECK_MIDWAY_RVP_ABORTED]
  · simp [midway_run, CHECK_MIDWAY_RVP_ABORTED]

theorem rvp_add_wave (wave : List (Nat × eActionDecision)) (r : rvp_t) :
    (wave.foldl (fun r x => r.add_action x.1) r).remaining = r.remaining + wave.length ∧
    (wave.foldl (fun r x => r.add_action x.1) r).finalized_by = r.finalized_by := by
  induction wave generalizing r with
  | nil => simp
  | cons x xs ih =>
    obtain ⟨h1, h2⟩ := ih (r.add_action x.1)
    simp only [List.foldl_cons, List.length_cons]
    rw [h1, h2]
    simp only [rvp_t.add_action]
    constructor
    · push_cast
      ring
    · trivial

theorem rvp_reports_before_zero (l : List (Nat × eActionDecision)) (r : rvp_t)
    (h : (l.length : Int) < r.remaining) :
    (l.foldl (fun r x => r.report x.1 x.2) r).remaining = r.remaining - l.length ∧
    (l.foldl (fun r x => r.report x.1 x.2) r).finalized_by = r.finalized_by := by
  induction l generalizing r with
  | nil => simp
  | cons x xs ih =>
    simp only [List.length_cons, Nat.cast_add, Nat.cast_one] at h
    have hne : r.remaining - 1 ≠ 0 := by omega
    have hr : (r.report x.1 x.2).remaining = r.remaining - 1 ∧
        (r.report x.1 x.2).finalized_by = r.finalized_by := by
      simp [rvp_t.report, hne]
    obtain ⟨h1, h2⟩ := ih (r.report x.1 x.2) (by rw [hr.1]; omega)
    simp only [List.foldl_cons, List.length_cons]
    rw [h1, h2, hr.1, hr.2]
    constructor
    · push_cast
      ring
    · trivial

/-- C10: for every wave of N ≥ 1 actions registered with the RVP and every
order in which the N actions report (any permutation of the wave, whatever
the decisions), the finalize logic runs exactly once: after all reports the
RVP was finalized by exactly one report, the last one, which is the report
that brought `remaining` to zero; before it, after any smaller number of
reports, the finalize logic has not run and `remaining` is positive. -/
theorem C10_finalize_exactly_once (wave order : List (Nat × eActionDecision))
    (hperm : order.Perm wave) (hne : wave ≠ []) :
    (rvp_t.after_wave wave order).finalized_by.length = 1 ∧
    (∃ last, order.getLast? = some last ∧
      (rvp_t.after_wave wave order).finalized_by = [last.1]) ∧
    (rvp_t.after_wave wave order).remaining = 0 ∧
    ∀ n, n < order.length →
      (rvp_t.after_wave wave (order.take n)).finalized_by = [] ∧
      0 < (rvp_t.after_wave wave (order.take n)).remaining := by
  have hlen : order.length = wave.length := hperm.length_eq
  have hwl : 0 < wave.length := List.length_pos.mpr hne
  obtain ⟨a1, a2⟩ := rvp_add_wave wave rvp_t.created
  have hrem : (wave.foldl (fun r x => r.add_action x.1) rvp_t.created).remaining =
      wave.length := by
    rw [a1]
    simp [rvp_t.created]
  have hfin : (wave.foldl (fun r x => r.add_action x.1) rvp_t.created).finalized_by = [] := by
    rw [a2]
    rfl
  have hone : order ≠ [] := by
    intro h
    rw [h] at hlen
    simp at hlen
    omega
  obtain ⟨init, last, hsplit⟩ : ∃ init last, order = init ++ [last] := by
    rcases List.eq_nil_or_concat order with h | ⟨init, last, h⟩
    · exact absurd h hone
    · exact ⟨init, last, by rw [h, List.concat_eq_append]⟩
  have hdl : init.length = wave.length - 1 := by
    rw [hsplit] at hlen
    simp at hlen
    omega
  obtain ⟨b1, b2⟩ := rvp_reports_before_zero init
    (wave.foldl (fun r x => r.add_action x.1) rvp_t.created) (by rw [hrem, hdl]; omega)
  have hfinal : (rvp_t.after_wave wave order).finalized_by = [last.1] ∧
      (rvp_t.after_wave wave order).remaining = 0 := by
    unfold rvp_t.after_wave
    rw [hsplit, List.foldl_append]
    have hz : (List.foldl (fun r x => r.report x.1 x.2)
        (wave.foldl (fun r x => r.add_action x.1) rvp_t.created) init).remaining - 1
        = 0 := by
      rw [b1, hrem, hdl]
      omega
    have b3 := b2.trans hfin
    simp only [List.foldl_cons, List.foldl_nil]
    generalize List.foldl (fun r x => r.report x.1 x.2)
      (wave.foldl (fun r x => r.add_action x.1) rvp_t.created) init = R at hz b3 ⊢
    simp [rvp_t.report, hz, b3]
  refine ⟨by rw [hfinal.1]; rfl, ⟨last, by rw [hsplit]; simp, hfinal.1⟩, hfinal.2, ?_⟩
  intro n hn
  obtain ⟨c1, c2⟩ := rvp_reports_before_zero (order.take n)
    (wave.foldl (fun r x => r.add_action x.1) rvp_t.created)
    (by rw [hrem, List.length_take]; omega)
  unfold rvp_t.after_wave
  rw [c1, c2, hfin, hrem, List.length_take]
  exact ⟨rfl, by omega⟩

/-- C10 at a concrete wave: three actions 0, 1, 2 that report in the order 2, 0,
1 (the first report being a Deadlock): the finalize logic runs once, from the
report of action 1. -/
theorem C10_finalize_exactly_once_witness :
    (rvp_t.after_wave
      [(0, .AD_COMMIT), (1, .AD_COMMIT), (2, .AD_DEADLOCK)]
      [(2, .AD_DEADLOCK), (0, .AD_COMMIT), (1, .AD_COMMIT)]).finalized_by = [1] := by
  obtain ⟨last, h1, h2⟩ := (C10_finalize_exactly_once
    [(0, .AD_COMMIT), (1, .AD_COMMIT), (2, .AD_DEADLOCK)]
    [(2, .AD_DEADLOCK), (0, .AD_COMMIT), (1, .AD_COMMIT)] (by decide) (by decide)).2.1
  simp only [List.getLast?, List.getLast, Option.some.injEq] at h1
  rw [h2, ← h1]

end dora

namespace tpcc

/-! ### The `set` method of the action classes -/

/-- C11 as stated fails for the classes declared by
`DECLARE_DORA_ACTION_NO_RVP_CLASS`: with asserts compiled in and a non-null
cache and environment, `set` called with a null RVP fails no assertion of its
own and goes on to the call `_range_act_set(axct,atid,prvp,keylen)`, handing
it the null RVP. -/
theorem C11_counterexample :
    action_set envAllOk .NO_RVP .upd_cust_mb .final_mb_rvp false true true ⟨[], []⟩ =
      (.next (), ⟨[.range_act_set .upd_cust_mb .final_mb_rvp], []⟩) :=
  rfl

/-- C11, amended: with asserts compiled in, `set` of a class declared by
`DECLARE_DORA_ACTION_WITH_RVP_CLASS` reaches the binding call
`_range_act_set` exactly when the RVP, the environment and the cache are all
non-null, and otherwise ends in a failed assertion before any operation;
`set` of a class declared by `DECLARE_DORA_ACTION_NO_RVP_CLASS` reaches the
binding call exactly when the environment and the cache are non-null,
whatever the RVP, and otherwise ends in a failed assertion before any
operation. -/
theorem C11_set_asserts (env : Env) (a : Action) (r : Rvp) (prvp penv pc : Bool) (w : World)
    (h : env.asserts = true) :
    action_set env .WITH_RVP a r prvp penv pc w =
      (if prvp && penv && pc then (.next (), { w with log := w.log ++ [.range_act_set a r] })
       else (.stop .assertion_failed, w)) ∧
    action_set env .NO_RVP a r prvp penv pc w =
      (if penv && pc then (.next (), { w with log := w.log ++ [.range_act_set a r] })
       else (.stop .assertion_failed, w)) := by
  cases prvp <;> cases penv <;> cases pc <;>
    simp [action_set, bind_eq, Coord.bind, c_assert, h, halt, emit]

/-- C11 amended, at a concrete call: with asserts compiled in, `set` of a class
with RVP called with a null RVP (cache and environment non-null) ends in a
failed assertion and logs nothing. -/
theorem C11_set_asserts_witness :
    envAllOk.asserts = true ∧
    action_set envAllOk .WITH_RVP .pay_upd_wh .midway_pay_rvp false true true ⟨[], []⟩ =
      (.stop .assertion_failed, ⟨[], []⟩) :=
  ⟨rfl, (C11_set_asserts envAllOk .pay_upd_wh .midway_pay_rvp false true true ⟨[], []⟩ rfl).1⟩

end tpcc

namespace dora

/-! ### The decisions of an action -/

/-- C12 as stated fails: `AD_PROPAGATE` is an enumerator of `eActionDecision`
and is none of Undecided, Abort, Deadlock, Commit, Die; its code is `0x6`. -/
theorem C12_counterexample :
    eActionDecision.AD_PROPAGATE ∉
      [eActionDecision.AD_UNDECIDED, .AD_ABORT, .AD_DEADLOCK, .AD_COMMIT, .AD_DIE] ∧
    eActionDecision.AD_PROPAGATE.val = 0x6 := by
  decide

/-- C12, amended: the values of `eActionDecision` are exactly the six
enumerators Undecided, Abort, Deadlock, Commit, Die and Propagate; their
codes are pairwise distinct, namely 1 to 6 in this order. -/
theorem C12_decisions :
    (∀ d : eActionDecision,
      d ∈ [eActionDecision.AD_UNDECIDED, .AD_ABORT, .AD_DEADLOCK, .AD_COMMIT, .AD_DIE,
        .AD_PROPAGATE]) ∧
    (∀ d1 d2 : eActionDecision, d1.val = d2.val → d1 = d2) ∧
    [eActionDecision.AD_UNDECIDED, .AD_ABORT, .AD_DEADLOCK, .AD_COMMIT, .AD_DIE,
      .AD_PROPAGATE].map eActionDecision.val = [1, 2, 3, 4, 5, 6] := by
  refine ⟨fun d => by cases d <;> decide, fun d1 d2 => by cases d1 <;> cases d2 <;> decide, rfl⟩

end dora

namespace tpcc_rnd

/-! ### Random values -/

theorem wrap_int_id (z : Int) (h1 : INT_MIN ≤ z) (h2 : z ≤ INT_MAX) : wrap_int z = z := by
  unfold wrap_int INT_MIN INT_MAX at *
  omega

/-- Without overflow `rand_integer` is the remainder shifted by `val_lo`. -/
theorem rand_integer_spec (rnd lo hi : Int) (hlo : INT_MIN ≤ lo) (hle : lo ≤ hi)
    (hhi : hi ≤ INT_MAX) (hrep : hi - lo + 1 ≤ INT_MAX) (hr : 0 ≤ rnd) :
    rand_integer rnd lo hi = some (rnd % (hi - lo + 1) + lo) ∧
    lo ≤ rnd % (hi - lo + 1) + lo ∧ rnd % (hi - lo + 1) + lo ≤ hi := by
  have h1 : wrap_int (hi - lo) = hi - lo := wrap_int_id _ (by unfold INT_MIN; omega) (by omega)
  have h2 : wrap_int (hi - lo + 1) = hi - lo + 1 :=
    wrap_int_id _ (by unfold INT_MIN; omega) (by omega)
  have hpos : 0 < hi - lo + 1 := by omega
  have hm0 : 0 ≤ rnd % (hi - lo + 1) := Int.emod_nonneg _ (by omega)
  have hm1 : rnd % (hi - lo + 1) < hi - lo + 1 := Int.emod_lt_of_pos _ hpos
  have h3 : wrap_int (rnd % (hi - lo + 1) + lo) = rnd % (hi - lo + 1) + lo :=
    wrap_int_id _ (by omega) (by omega)
  refine ⟨?_, by omega, by omega⟩
  unfold rand_integer
  simp only [h1, h2]
  rw [if_neg (by omega), Int.tmod_eq_emod hr (by omega), h3]

theorem nat_or_le_add (a b : Nat) : a ||| b ≤ a + b := by
  induction a using Nat.strong_induction_on generalizing b with
  | _ a ih =>
    rcases Nat.eq_zero_or_pos a with h | h
    · subst h
      simp
    · have h1 := ih (a / 2) (Nat.div_lt_self h (by omega)) (b / 2)
      have h2 : (a ||| b) / 2 = a / 2 ||| b / 2 := Nat.or_div_two
      have h3 : (a ||| b) % 2 ≤ a % 2 + b % 2 := by
        rcases Nat.mod_two_eq_zero_or_one (a ||| b) with h4 | h4
        · omega
        · have := Nat.or_mod_two_eq_one.mp h4
          omega
      omega

/-- The bitwise or of two non-negative values of `int` is non-negative and at
most their sum. -/
theorem int_lor_bounds (a b : Int) (ha : 0 ≤ a) (hb : 0 ≤ b) :
    0 ≤ Int.lor a b ∧ Int.lor a b ≤ a + b := by
  obtain ⟨m, rfl⟩ := Int.eq_ofNat_of_zero_le ha
  obtain ⟨n, rfl⟩ := Int.eq_ofNat_of_zero_le hb
  have h : Int.lor (m : Int) (n : Int) = ((m ||| n : Nat) : Int) := rfl
  rw [h]
  have := nat_or_le_add m n
  omega

/-- Without overflow `NUrand_val` is the formula over its two draws. -/
theorem NUrand_val_spec (rnd1 rnd2 A x y C : Int) (hx : 0 ≤ x) (hxy : x ≤ y) (hA : 0 ≤ A)
    (hC : 0 ≤ C) (hno : A + y + C < INT_MAX) (hr1 : 0 ≤ rnd1) (hr2 : 0 ≤ rnd2) :
    ∃ r1 r2, rand_integer rnd1 0 A = some r1 ∧ rand_integer rnd2 x y = some r2 ∧
      0 ≤ r1 ∧ r1 ≤ A ∧ x ≤ r2 ∧ r2 ≤ y ∧
      NUrand_val rnd1 rnd2 A x y C = some ((Int.lor r1 r2 + C) % (y - x + 1) + x) ∧
      x ≤ (Int.lor r1 r2 + C) % (y - x + 1) + x ∧
      (Int.lor r1 r2 + C) % (y - x + 1) + x ≤ y := by
  have hI : INT_MAX = 2147483647 := rfl
  have hJ : INT_MIN = -2147483648 := rfl
  obtain ⟨e1, a1, a2⟩ := rand_integer_spec rnd1 0 A (by omega) hA (by omega) (by omega) hr1
  obtain ⟨e2, b1, b2⟩ := rand_integer_spec rnd2 x y (by omega) hxy (by omega) (by omega) hr2
  refine ⟨_, _, e1, e2, a1, a2, b1, b2, ?_⟩
  generalize rnd1 % (A - 0 + 1) + 0 = r1 at e1 a1 a2 ⊢
  generalize rnd2 % (y - x + 1) + x = r2 at e2 b1 b2 ⊢
  obtain ⟨l1, l2⟩ := int_lor_bounds r1 r2 a1 (by omega)
  have hpos : 0 < y - x + 1 := by omega
  have hm0 : 0 ≤ (Int.lor r1 r2 + C) % (y - x + 1) := Int.emod_nonneg _ (by omega)
  have hm1 : (Int.lor r1 r2 + C) % (y - x + 1) < y - x + 1 := Int.emod_lt_of_pos _ hpos
  have w1 : wrap_int (y - x) = y - x := wrap_int_id _ (by omega) (by omega)
  have w2 : wrap_int (y - x + 1) = y - x + 1 := wrap_int_id _ (by omega) (by omega)
  have w3 : wrap_int (Int.lor r1 r2 + C) = Int.lor r1 r2 + C :=
    wrap_int_id _ (by omega) (by omega)
  have w4 : wrap_int ((Int.lor r1 r2 + C) % (y - x + 1) + x) =
      (Int.lor r1 r2 + C) % (y - x + 1) + x := wrap_int_id _ (by omega) (by omega)
  refine ⟨?_, by omega, by omega⟩
  unfold NUrand_val
  rw [e1, e2]
  simp only [w1, w2, w3]
  rw [if_neg (by omega), Int.tmod_eq_emod (by omega) (by omega), w4]

theorem last_name_parts_at_some (i : Int) (h0 : 0 ≤ i) (h9 : i ≤ 9) :
    last_name_parts_at i = some (last_name_parts.getD i.toNat "") := by
  obtain ⟨n, rfl⟩ := Int.eq_ofNat_of_zero_le h0
  have hn : n ≤ 9 := by omega
  interval_cases n <;> rfl

/-- The three reads and the two concatenations of `create_random_last_name`
for a number from 0 to 999. -/
theorem last_name_of_number (n : Int) (h0 : 0 ≤ n) (h1 : n ≤ 999) :
    (do
      let out_buffer ← last_name_parts_at (Int.tdiv n 100)
      let random_num := Int.tmod n 100
      let out_buffer := out_buffer ++ (← last_name_parts_at (Int.tdiv random_num 10))
      let random_num := Int.tmod random_num 10
      let out_buffer := out_buffer ++ (← last_name_parts_at random_num)
      some (out_buffer, (out_buffer.length : Int))) =
    some (spec_last_name n, ((spec_last_name n).length : Int)) := by
  have t1 : Int.tdiv n 100 = n / 100 := Int.tdiv_eq_ediv h0 (by omega)
  have t2 : Int.tmod n 100 = n % 100 := Int.tmod_eq_emod h0 (by omega)
  have t3 : Int.tdiv (n % 100) 10 = n % 100 / 10 := Int.tdiv_eq_ediv (by omega) (by omega)
  have t4 : Int.tmod (n % 100) 10 = n % 100 % 10 := Int.tmod_eq_emod (by omega) (by omega)
  have b1 : 0 ≤ n / 100 ∧ n / 100 ≤ 9 := by omega
  have b2 : 0 ≤ n % 100 / 10 ∧ n % 100 / 10 ≤ 9 := by omega
  have b3 : 0 ≤ n % 100 % 10 ∧ n % 100 % 10 ≤ 9 := by omega
  have d1 : n / 100 % 10 = n / 100 := by omega
  have d2 : n / 10 % 10 = n % 100 / 10 := by omega
  have d3 : n % 10 = n % 100 % 10 := by omega
  unfold spec_last_name
  rw [d1, d2, d3]
  simp only [t1, t2, t3, t4, last_name_parts_at_some _ b1.1 b1.2,
    last_name_parts_at_some _ b2.1 b2.2, last_name_parts_at_some _ b3.1 b3.2]
  rfl

/-- C13: for `val_lo <= val_hi` of type `int` with `val_hi - val_lo + 1`
representable as `int`, `rand_integer(val_lo, val_hi)` returns, for every
non-negative outcome of `random()`, a value `r` with `val_lo <= r <= val_hi`,
and every value of that range is returned for some outcome of `random()`
(an outcome between 0 and `2^31 - 1`). -/
theorem C13_rand_integer_range (val_lo val_hi : Int) (hlo : INT_MIN ≤ val_lo)
    (hhi : val_hi ≤ INT_MAX) (hle : val_lo ≤ val_hi) (hrep : val_hi - val_lo + 1 ≤ INT_MAX) :
    (∀ rnd, 0 ≤ rnd → ∃ r, rand_integer rnd val_lo val_hi = some r ∧ val_lo ≤ r ∧ r ≤ val_hi) ∧
    (∀ k, val_lo ≤ k → k ≤ val_hi →
      ∃ rnd, 0 ≤ rnd ∧ rnd ≤ 2147483647 ∧ rand_integer rnd val_lo val_hi = some k) := by
  constructor
  · intro rnd hr
    obtain ⟨e, a, b⟩ := rand_integer_spec rnd val_lo val_hi hlo hle hhi hrep hr
    exact ⟨_, e, a, b⟩
  · intro k h1 h2
    have hI : INT_MAX = 2147483647 := rfl
    obtain ⟨e, _, _⟩ := rand_integer_spec (k - val_lo) val_lo val_hi hlo hle hhi hrep (by omega)
    refine ⟨k - val_lo, by omega, by omega, ?_⟩
    rw [e, Int.emod_eq_of_lt (by omega) (by omega)]
    congr 1
    omega

/-- C13 at a concrete call: `rand_integer(48, 57)` returns a value from 48 to 57
when `random()` gives 12345. -/
theorem C13_rand_integer_range_witness :
    ∃ r, rand_integer 12345 48 57 = some r ∧ 48 ≤ r ∧ r ≤ 57 :=
  (C13_rand_integer_range 48 57 (by decide) (by decide) (by decide) (by decide)).1 12345
    (by decide)

/-- C14 as stated fails: for `A = 0`, `x = 0`, `y = 9`, `C = 2147483647` (all
within the stated ranges) and the draws `r1 = 0`, `r2 = 1`, the sum
`(r1 | r2) + C` overflows `int`; with the wrapped sum `NUrand_val` returns
`-8`, which is outside `[0, 9]` and is not `((r1 | r2) + C) mod 10 + 0 = 8`. -/
theorem C14_counterexample :
    rand_integer 0 0 0 = some 0 ∧ rand_integer 1 0 9 = some 1 ∧
    NUrand_val 0 1 0 0 9 2147483647 = some (-8) ∧
    (Int.lor 0 1 + 2147483647) % (9 - 0 + 1) + 0 = 8 := by
  decide

/-- C14, amended: for `0 <= x <= y`, `A >= 0` and `C >= 0` with
`A + y + C < INT_MAX` (so that no intermediate result overflows `int`), and
non-negative outcomes of `random()`, `NUrand_val(A, x, y, C)` equals
`(((r1 | r2) + C) mod (y - x + 1)) + x`, where `r1` in `[0, A]` and `r2` in
`[x, y]` are its two `rand_integer` draws, and lies in `[x, y]`. -/
theorem C14_NUrand_val_formula (rnd1 rnd2 A x y C : Int) (hx : 0 ≤ x) (hxy : x ≤ y)
    (hA : 0 ≤ A) (hC : 0 ≤ C) (hno : A + y + C < INT_MAX) (hr1 : 0 ≤ rnd1) (hr2 : 0 ≤ rnd2) :
    ∃ r1 r2, rand_integer rnd1 0 A = some r1 ∧ rand_integer rnd2 x y = some r2 ∧
      0 ≤ r1 ∧ r1 ≤ A ∧ x ≤ r2 ∧ r2 ≤ y ∧
      NUrand_val rnd1 rnd2 A x y C = some ((Int.lor r1 r2 + C) % (y - x + 1) + x) ∧
      x ≤ (Int.lor r1 r2 + C) % (y - x + 1) + x ∧
      (Int.lor r1 r2 + C) % (y - x + 1) + x ≤ y :=
  NUrand_val_spec rnd1 rnd2 A x y C hx hxy hA hC hno hr1 hr2

/-- C14 amended, at a concrete call: `NUrand_val(255, 0, 999, 157)` with the
outcomes 1000 and 2000 of `random()` draws 232 and 0 and returns 389. -/
theorem C14_NUrand_val_formula_witness :
    ∃ r1 r2, rand_integer 1000 0 255 = some r1 ∧ rand_integer 2000 0 999 = some r2 ∧
      0 ≤ r1 ∧ r1 ≤ 255 ∧ 0 ≤ r2 ∧ r2 ≤ 999 ∧
      NUrand_val 1000 2000 255 0 999 157 = some ((Int.lor r1 r2 + 157) % (999 - 0 + 1) + 0) ∧
      0 ≤ (Int.lor r1 r2 + 157) % (999 - 0 + 1) + 0 ∧
      (Int.lor r1 r2 + 157) % (999 - 0 + 1) + 0 ≤ 999 :=
  C14_NUrand_val_formula 1000 2000 255 0 999 157 (by decide) (by decide) (by decide)
    (by decide) (by decide) (by decide) (by decide)

/-- C15: for `cust_num` from 1 to 1000, `create_random_last_name` leaves in the
buffer the parts of `last_name_parts` for the hundreds, tens and units digits
of `cust_num - 1`, concatenated, and returns the length of that string; for
`cust_num = 0` the same holds for the number `n` that
`NUrand_val(A_C_LAST, 0, 999, C_C_LAST_LOAD)` draws, which is from 0 to 999
(the constants being non-negative with `A_C_LAST + 999 + C_C_LAST_LOAD <
INT_MAX`). In both cases the three indices used are within 0..9. -/
theorem C15_create_random_last_name (A_C_LAST C_C_LAST_LOAD rnd1 rnd2 cust_num : Int) :
    (1 ≤ cust_num → cust_num ≤ 1000 →
      create_random_last_name A_C_LAST C_C_LAST_LOAD rnd1 rnd2 cust_num =
        some (spec_last_name (cust_num - 1), ((spec_last_name (cust_num - 1)).length : Int)) ∧
      (∀ i ∈ [Int.tdiv (cust_num - 1) 100, Int.tdiv (Int.tmod (cust_num - 1) 100) 10,
          Int.tmod (Int.tmod (cust_num - 1) 100) 10], 0 ≤ i ∧ i ≤ 9)) ∧
    (cust_num = 0 → 0 ≤ A_C_LAST → 0 ≤ C_C_LAST_LOAD →
      A_C_LAST + 999 + C_C_LAST_LOAD < INT_MAX → 0 ≤ rnd1 → 0 ≤ rnd2 →
      ∃ n, NUrand_val rnd1 rnd2 A_C_LAST 0 999 C_C_LAST_LOAD = some n ∧ 0 ≤ n ∧ n ≤ 999 ∧
        create_random_last_name A_C_LAST C_C_LAST_LOAD rnd1 rnd2 cust_num =
          some (spec_last_name n, ((spec_last_name n).length : Int)) ∧
        (∀ i ∈ [Int.tdiv n 100, Int.tdiv (Int.tmod n 100) 10, Int.tmod (Int.tmod n 100) 10],
          0 ≤ i ∧ i ≤ 9)) := by
  have idx : ∀ n : Int, 0 ≤ n → n ≤ 999 →
      ∀ i ∈ [Int.tdiv n 100, Int.tdiv (Int.tmod n 100) 10, Int.tmod (Int.tmod n 100) 10],
        0 ≤ i ∧ i ≤ 9 := by
    intro n h0 h1 i hi
    have t1 : Int.tdiv n 100 = n / 100 := Int.tdiv_eq_ediv h0 (by omega)
    have t2 : Int.tmod n 100 = n % 100 := Int.tmod_eq_emod h0 (by omega)
    have t3 : Int.tdiv (n % 100) 10 = n % 100 / 10 := Int.tdiv_eq_ediv (by omega) (by omega)
    have t4 : Int.tmod (n % 100) 10 = n % 100 % 10 := Int.tmod_eq_emod (by omega) (by omega)
    rw [t2, t1, t3, t4] at hi
    simp only [List.mem_cons, List.mem_singleton, List.not_mem_nil, or_false] at hi
    rcases hi with rfl | rfl | rfl <;> omega
  constructor
  · intro h1 h2
    refine ⟨?_, idx _ (by omega) (by omega)⟩
    have hw : wrap_int (cust_num - 1) = cust_num - 1 :=
      wrap_int_id _ (by unfold INT_MIN; omega) (by unfold INT_MAX; omega)
    unfold create_random_last_name
    rw [if_neg (by omega), hw]
    exact last_name_of_number (cust_num - 1) (by omega) (by omega)
  · intro h0 hA hC hno hr1 hr2
    obtain ⟨r1, r2, _, _, _, _, _, _, e, lo, hi⟩ :=
      NUrand_val_spec rnd1 rnd2 A_C_LAST 0 999 C_C_LAST_LOAD (by omega) (by omega) hA hC hno
        hr1 hr2
    refine ⟨_, e, lo, hi, ?_, idx _ lo hi⟩
    unfold create_random_last_name
    rw [if_pos h0, e]
    exact last_name_of_number _ lo hi

/-- C15 at a concrete call: for `cust_num = 373` the buffer holds
`PRICALLYABLE`, the parts for the digits 3, 7, 2 of 372, and 12 is returned. -/
theorem C15_create_random_last_name_witness :
    create_random_last_name 255 157 0 0 373 = some ("PRICALLYABLE", 12) :=
  ((C15_create_random_last_name 255 157 0 0 373).1 (by decide) (by decide)).1

end tpcc_rnd

namespace alignedops

/-! ### Aligned allocation -/

theorem aligned_search_steps (align_size : Nat) :
    ∀ (d fuel a : Nat), (a + d) % align_size = 0 →
      (∀ j, j < d → (a + j) % align_size ≠ 0) → d < fuel → a + d < SIZE_MOD →
      aligned_search align_size fuel a = some (a + d) := by
  intro d
  induction d with
  | zero =>
    intro fuel a h1 _ h3 _
    obtain ⟨f, rfl⟩ : ∃ f, fuel = f + 1 := ⟨fuel - 1, by omega⟩
    rw [aligned_search, if_neg (by simpa using h1)]
    rfl
  | succ d ih =>
    intro fuel a h1 h2 h3 h4
    obtain ⟨f, rfl⟩ : ∃ f, fuel = f + 1 := ⟨fuel - 1, by omega⟩
    have h0 : a % align_size ≠ 0 := by simpa using h2 0 (by omega)
    rw [aligned_search, if_pos h0, Nat.mod_eq_of_lt (by omega : a + 1 < SIZE_MOD)]
    have h5 := ih f (a + 1) (by rw [Nat.add_assoc, Nat.add_comm 1 d]; exact h1)
      (fun j hj => by
        have := h2 (j + 1) (by omega)
        rw [Nat.add_assoc, Nat.add_comm 1 j]
        exact this) (by omega) (by omega)
    rw [h5]
    congr 1
    omega

/-- The distance from `base` to the next multiple of `align_size`. -/
theorem next_multiple (base align_size : Nat) (ha : 0 < align_size) :
    ∃ d, d < align_size ∧ (base + d) % align_size = 0 ∧
      ∀ j, j < d → (base + j) % align_size ≠ 0 := by
  have hr := Nat.mod_lt base ha
  have hq := Nat.div_add_mod base align_size
  by_cases h0 : base % align_size = 0
  · exact ⟨0, ha, by simpa using h0, fun j hj => by omega⟩
  · refine ⟨align_size - base % align_size, by omega, ?_, ?_⟩
    · have : base + (align_size - base % align_size) =
          align_size * (base / align_size + 1) := by
        rw [Nat.mul_add, Nat.mul_one]
        omega
      rw [this]
      exact Nat.mul_mod_right _ _
    · intro j hj
      have : base + j = align_size * (base / align_size) + (base % align_size + j) := by omega
      rw [this, Nat.mul_add_mod, Nat.mod_eq_of_lt (by omega)]
      omega

/-- When neither the size of the block nor the end of the block overflows
`size_t`, `aligned_alloc` returns the block and stores an aligned address
inside it, whose `buf_size` bytes lie inside the block. -/
theorem aligned_alloc_in_range (asserts : Bool) (new_char : Nat → Nat) (buf_size align_size : Nat)
    (hb : 0 < buf_size) (ha : 0 < align_size) (hsz : buf_size + align_size - 1 < SIZE_MOD)
    (hnn : new_char (buf_size + align_size - 1) ≠ 0)
    (hblk : new_char (buf_size + align_size - 1) + (buf_size + align_size - 1) < SIZE_MOD) :
    ∃ a, aligned_alloc asserts new_char buf_size align_size =
        some (.allocated (new_char (buf_size + align_size - 1)) a) ∧
      a % align_size = 0 ∧ new_char (buf_size + align_size - 1) ≤ a ∧
      a < new_char (buf_size + align_size - 1) + align_size ∧
      a + buf_size ≤ new_char (buf_size + align_size - 1) + (buf_size + align_size - 1) ∧
      a < new_char (buf_size + align_size - 1) + (buf_size + align_size - 1) := by
  have hS : SIZE_MOD = 18446744073709551616 := rfl
  have halloc : (buf_size + align_size + (SIZE_MOD - 1)) % SIZE_MOD =
      buf_size + align_size - 1 := by
    have : buf_size + align_size + (SIZE_MOD - 1) = (buf_size + align_size - 1) + SIZE_MOD := by
      omega
    rw [this, Nat.add_mod_right, Nat.mod_eq_of_lt hsz]
  generalize hbase : new_char (buf_size + align_size - 1) = base at hnn hblk ⊢
  obtain ⟨d, d1, d2, d3⟩ := next_multiple base align_size ha
  have hs := aligned_search_steps align_size d align_size base d2 d3 d1 (by omega)
  refine ⟨base + d, ?_, d2, by omega, by omega, by omega, by omega⟩
  unfold aligned_alloc
  have e1 : decide (buf_size > 0) = true := by simpa using hb
  have e2 : decide (align_size > 0) = true := by simpa using ha
  have e3 : decide (base + d < (base + (buf_size + align_size - 1)) % SIZE_MOD) = true := by
    rw [Nat.mod_eq_of_lt hblk]
    simp
    omega
  simp only [e1, e2, halloc, hbase, hs, e3, Bool.not_true, Bool.and_false, Bool.false_eq_true,
    if_false, if_neg hnn, if_neg (by omega : ¬ align_size = 0)]

/-- C16 fails in the code at `buf_size = 2^64 - 1`, `align_size = 2`: the sum
`buf_size + align_size - 1` wraps to 0, so a block of 0 bytes is requested.
With the block at address 4096 and asserts compiled in, the search loop stops
at 4096 and the assertion after it, `4096 < 4096 + 0`, fails. With asserts
compiled out and the block of 0 bytes at 4097, the address stored is 4098,
which is not inside the block. -/
theorem C16_aligned_alloc_overflow :
    aligned_alloc true (fun _ => 4096) 18446744073709551615 2 = some .assertion_failed ∧
    (18446744073709551615 + 2 + (SIZE_MOD - 1)) % SIZE_MOD = 0 ∧
    aligned_alloc false (fun n => if n = 0 then 4097 else 0) 18446744073709551615 2 =
      some (.allocated 4097 4098) := by
  decide

end alignedops

namespace payment_baseline

/-! ### The PAYMENT transaction over BerkeleyDB -/

theorem bdb_bind_eq {α β : Type} (m : Bdb α) (f : α → Bdb β) : (m >>= f) = Bdb.bind m f := rfl

theorem bdb_bind_ok {α β : Type} (m : Bdb α) (f : α → Bdb β) (w : DbWorld) (b : β)
    (w2 : DbWorld) (h : Bdb.bind m f w = (.ok b, w2)) :
    ∃ a w1, m w = (.ok a, w1) ∧ f a w1 = (.ok b, w2) := by
  unfold Bdb.bind at h
  rcases hm : m w with ⟨r, w1⟩
  rw [hm] at h
  cases r with
  | ok a => exact ⟨a, w1, rfl, h⟩
  | raised r => simp at h

/-- The handler of `executePaymentBaseline` returns a `ROLLBACKED` result. -/
theorem payment_handler_ok (env : DbEnv) (id : Int) (w w2 : DbWorld) (t : trx_result_tuple_t)
    (h : Bdb.bind (db_call env .abort .abort)
      (fun _ => (pure { ( ⟨.UNDEF, id⟩ : trx_result_tuple_t) with R_STATE := .ROLLBACKED } :
        Bdb trx_result_tuple_t)) w = (.ok t, w2)) :
    t = ⟨.ROLLBACKED, id⟩ := by
  obtain ⟨_, w3, _, h2⟩ := bdb_bind_ok _ _ _ _ _ h
  simp only [pure] at h2
  injection h2 with h3 _
  injection h3 with h4
  exact h4.symm

/-- Whenever `executePaymentBaseline` returns, the state of its result is
`UNDEF` or `ROLLBACKED`. -/
theorem executePaymentBaseline_ok (env : DbEnv) (cc : List Char) (p : payment_baseline_packet_t)
    (w w2 : DbWorld) (t : trx_result_tuple_t)
    (h : executePaymentBaseline env cc p w = (.ok t, w2)) :
    t = ⟨.UNDEF, p.trx_id⟩ ∨ t = ⟨.ROLLBACKED, p.trx_id⟩ := by
  unfold executePaymentBaseline try_catch at h
  simp only [bdb_bind_eq] at h
  split at h
  · exact Or.inr (payment_handler_ok env _ _ _ _ h)
  · split at h
    · exact Or.inr (payment_handler_ok env _ _ _ _ h)
    · simp at h
  · rename_i r hne1 hne2
    obtain ⟨_, _, _, h1⟩ := bdb_bind_ok _ _ _ _ _ h
    obtain ⟨_, _, _, h2⟩ := bdb_bind_ok _ _ _ _ _ h1
    obtain ⟨_, _, _, h3⟩ := bdb_bind_ok _ _ _ _ _ h2
    obtain ⟨_, _, _, h4⟩ := bdb_bind_ok _ _ _ _ _ h3
    obtain ⟨_, _, _, h5⟩ := bdb_bind_ok _ _ _ _ _ h4
    simp only [pure] at h5
    left
    injection h5 with h6 _
    injection h6 with h7
    exact h7.symm

theorem keeps_pure {α : Type} (a : α) : KeepsCustomer (pure a : Bdb α) := fun _ _ => rfl

theorem keeps_raise {α : Type} (r : Raise) : KeepsCustomer (raise r : Bdb α) := fun _ _ => rfl

theorem keeps_bind {α β : Type} (m : Bdb α) (f : α → Bdb β) (hm : KeepsCustomer m)
    (hf : ∀ a, KeepsCustomer (f a)) : KeepsCustomer (Bdb.bind m f) := by
  intro w k
  unfold Bdb.bind
  rcases h : m w with ⟨r, w1⟩
  have h1 := hm w k
  rw [h] at h1
  cases r with
  | ok a => exact (hf a w1 k).trans h1
  | raised r => exact h1

theorem keeps_assert (env : DbEnv) (c : Bool) : KeepsCustomer (b_assert env c) := by
  unfold b_assert
  split
  · exact keeps_raise _
  · exact keeps_pure _

theorem keeps_get (env : DbEnv) (t : TpccTable) (key : List Int) :
    KeepsCustomer (db_get env t key) := by
  unfold db_get
  split
  · exact keeps_raise _
  · exact fun _ _ => rfl

theorem keeps_put (env : DbEnv) (t : TpccTable) (key : List Int) (data : Dbt)
    (ht : t ≠ .TPCC_TABLE_CUSTOMER) : KeepsCustomer (db_put env t key data) := by
  unfold db_put
  split
  · exact keeps_raise _
  · intro w k
    simp only
    split
    · simp [Ne.symm ht]
    · rfl

theorem keeps_updateCustomerData (env : DbEnv) (c : tpcc_customer_tuple) :
    KeepsCustomer (updateCustomerData env c) := by
  unfold updateCustomerData
  simp only [bdb_bind_eq]
  exact keeps_bind _ _ (keeps_assert _ _) (fun _ => keeps_bind _ _ (keeps_assert _ _)
    (fun _ => keeps_assert _ _))

/-- Whatever its arguments and the database, `updateCustomerByID` leaves every
row of the CUSTOMER table as it is. -/
theorem updateCustomerByID_customer_table (env : DbEnv) (a_txn : Bool)
    (wh_id d_id c_id h_amount : Int) :
    KeepsCustomer (updateCustomerByID env a_txn wh_id d_id c_id h_amount) := by
  unfold updateCustomerByID
  simp only [bdb_bind_eq]
  repeat' first
    | exact keeps_pure _
    | exact keeps_raise _
    | exact keeps_assert _ _
    | exact keeps_get _ _ _
    | exact keeps_put _ _ _ _ (by decide)
    | exact keeps_updateCustomerData _ _
    | refine keeps_bind _ _ ?_ (fun _ => ?_)
    | split

/-- C18 fails in the code: whatever its arguments and the database,
`updateCustomerByID` leaves every row of the CUSTOMER table as it was, because
its `put` names `TPCC_TABLE_DISTRICT`. For customer (1, 2, 3) with balance 100
paying 10 the calls are the `get` on CUSTOMER and a `put` of the updated
customer row into DISTRICT under the customer key; the call returns 0, the
CUSTOMER row still has balance 100, and the DISTRICT table has a new entry
under the key (3, 2, 1). -/
theorem C18_put_names_district_table :
    (∀ (env : DbEnv) (a_txn : Bool) (wh_id d_id c_id h_amount : Int) (w : DbWorld)
      (k : List Int),
      (updateCustomerByID env a_txn wh_id d_id c_id h_amount w).2.tables
        .TPCC_TABLE_CUSTOMER k = w.tables .TPCC_TABLE_CUSTOMER k) ∧
    (updateCustomerByID envDb true 1 2 3 10 (worldDb 100 ['G', 'C'])).1 = .ok 0 ∧
    (updateCustomerByID envDb true 1 2 3 10 (worldDb 100 ['G', 'C'])).2.calls =
      [.get .TPCC_TABLE_CUSTOMER [3, 2, 1],
       .put .TPCC_TABLE_DISTRICT [3, 2, 1] (.customer ⟨90, 10, 1, ['G', 'C'], true⟩) 0] ∧
    (updateCustomerByID envDb true 1 2 3 10 (worldDb 100 ['G', 'C'])).2.tables
      .TPCC_TABLE_CUSTOMER [3, 2, 1] = some (.customer ⟨100, 0, 0, ['G', 'C'], true⟩) ∧
    (worldDb 100 ['G', 'C']).tables .TPCC_TABLE_DISTRICT [3, 2, 1] = none ∧
    (updateCustomerByID envDb true 1 2 3 10 (worldDb 100 ['G', 'C'])).2.tables
      .TPCC_TABLE_DISTRICT [3, 2, 1] = some (.customer ⟨90, 10, 1, ['G', 'C'], true⟩) :=
  ⟨fun env a_txn wh_id d_id c_id h_amount w k =>
      updateCustomerByID_customer_table env a_txn wh_id d_id c_id h_amount w k,
    by decide, by decide, by decide, by decide, by decide⟩

/-- C19 fails in the code: whenever `executePaymentBaseline` returns, its result
carries the transaction id of the packet and the state `UNDEF` or
`ROLLBACKED`, never a committed state. For the payment of customer (1, 2, 3)
with balance 100 every step succeeds, the last call on the database is the
`commit`, and the result is `(UNDEF, 7)`; when the `commit` throws a
`DbException` the transaction is aborted and the result is `(ROLLBACKED, 7)`. -/
theorem C19_commit_path_returns_UNDEF :
    (∀ (env : DbEnv) (cc : List Char) (p : payment_baseline_packet_t) (w w2 : DbWorld)
      (t : trx_result_tuple_t), executePaymentBaseline env cc p w = (.ok t, w2) →
      t.R_ID = p.trx_id ∧ t.R_STATE ≠ .COMMITTED) ∧
    (executePaymentBaseline envDb [] packetDb (worldDb 100 ['G', 'C'])).1 = .ok ⟨.UNDEF, 7⟩ ∧
    (executePaymentBaseline envDb [] packetDb (worldDb 100 ['G', 'C'])).2.calls.getLast? =
      some .commit ∧
    (executePaymentBaseline envDbCommitFails [] packetDb (worldDb 100 ['G', 'C'])).1 =
      .ok ⟨.ROLLBACKED, 7⟩ ∧
    (executePaymentBaseline envDbCommitFails [] packetDb (worldDb 100 ['G', 'C'])).2.calls.getLast? =
      some .abort := by
  refine ⟨?_, by decide, by decide, by decide, by decide⟩
  intro env cc p w w2 t h
  rcases executePaymentBaseline_ok env cc p w w2 t h with rfl | rfl
  · exact ⟨rfl, fun hc => TrxState.noConfusion hc⟩
  · exact ⟨rfl, fun hc => TrxState.noConfusion hc⟩

end payment_baseline

namespace ShoreTPCCEnv

/-! ### The DELIVERY transaction -/

theorem sm_bind_eq {α β : Type} (m : Sm α) (f : α → Sm β) : (m >>= f) = Sm.bind m f := rfl

theorem only_silent {α : Type} (P : SmCall → Prop) (m : Sm α)
    (h : ∀ w, (m w).2.calls = w.calls) : OnlyCalls P m :=
  fun w => ⟨[], by rw [h w, List.append_nil], by simp⟩

theorem only_pure {α : Type} (P : SmCall → Prop) (a : α) : OnlyCalls P (pure a : Sm α) :=
  only_silent P _ (fun _ => rfl)

theorem only_stop {α : Type} (P : SmCall → Prop) (e : SmExit) : OnlyCalls P (sm_stop e : Sm α) :=
  only_silent P _ (fun _ => rfl)

theorem only_trt_reset (P : SmCall → Prop) (s : TrxState) (x : Int) :
    OnlyCalls P (trt_reset s x) :=
  only_silent P _ (fun _ => rfl)

theorem only_trt_set_state (P : SmCall → Prop) (s : TrxState) :
    OnlyCalls P (trt_set_state s) :=
  only_silent P _ (fun _ => rfl)

theorem only_new_order_ids (P : SmCall → Prop) (w_id d_id : Int) :
    OnlyCalls P (new_order_ids w_id d_id) :=
  only_silent P _ (fun _ => rfl)

theorem only_call (P : SmCall → Prop) (c : SmCall) (h : P c) : OnlyCalls P (sm_call c) :=
  fun _ => ⟨[c], rfl, by simpa using h⟩

theorem only_bind {α β : Type} (P : SmCall → Prop) (m : Sm α) (f : α → Sm β)
    (hm : OnlyCalls P m) (hf : ∀ a, OnlyCalls P (f a)) : OnlyCalls P (Sm.bind m f) := by
  intro w
  obtain ⟨e1, h1, p1⟩ := hm w
  unfold Sm.bind
  rcases h : m w with ⟨r, w1⟩
  rw [h] at h1
  cases r with
  | next a =>
    obtain ⟨e2, h2, p2⟩ := hf a w1
    refine ⟨e1 ++ e2, ?_, ?_⟩
    · simp only
      rw [h2, h1, List.append_assoc]
    · intro e he
      rcases List.mem_append.mp he with h3 | h3
      · exact p1 e h3
      · exact p2 e h3
  | stop e => exact ⟨e1, h1, p1⟩

theorem only_assert (P : SmCall → Prop) (env : DeliveryEnv) (c : Bool) :
    OnlyCalls P (sm_assert env c) := by
  unfold sm_assert
  split
  · exact only_stop P _
  · exact only_pure P _

theorem only_deref (P : SmCall → Prop) (c : Bool) : OnlyCalls P (sm_deref c) := by
  unfold sm_deref
  split
  · exact only_pure P _
  · exact only_stop P _

theorem only_W_DO (P : SmCall → Prop) (env : DeliveryEnv) (op : SmOp) (d_id : Int) (m : Sm Unit)
    (hm : OnlyCalls P m) : OnlyCalls P (W_DO env op d_id m) := by
  unfold W_DO
  split
  · exact only_stop P _
  · exact hm

theorem only_delete_by_index (P : SmCall → Prop) (w_id d_id no_o_id : Int)
    (h : P (.new_order_delete w_id d_id no_o_id)) :
    OnlyCalls P (delete_by_index w_id d_id no_o_id) :=
  fun _ => ⟨[.new_order_delete w_id d_id no_o_id], rfl, by simpa using h⟩

theorem only_order_line_loop (lo hi : Int) (env : DeliveryEnv) (w_id d_id no_o_id : Int)
    (rows : List Int) : ∀ line total,
    OnlyCalls (callInDistricts lo hi) (order_line_loop env w_id d_id no_o_id rows line total) := by
  induction rows with
  | nil =>
    intro line total
    exact only_pure _ _
  | cons x xs ih =>
    intro line total
    unfold order_line_loop
    simp only [sm_bind_eq]
    exact only_bind _ _ _ (only_W_DO _ _ _ _ _ (only_call _ _ trivial))
      (fun _ => only_bind _ _ _ (only_W_DO _ _ _ _ _ (only_pure _ _)) (fun _ => ih _ _))

theorem only_delivery_district (lo hi : Int) (env : DeliveryEnv) (w_id carrier_id d_id : Int)
    (hd : lo ≤ d_id ∧ d_id < hi) :
    OnlyCalls (callInDistricts lo hi) (delivery_district env w_id carrier_id d_id) := by
  unfold delivery_district
  simp only [sm_bind_eq]
  repeat' first
    | exact only_pure _ _
    | exact only_stop _ _
    | exact only_assert _ _ _
    | exact only_call _ _ trivial
    | exact only_delete_by_index _ _ _ _ hd
    | exact only_new_order_ids _ _ _
    | exact only_order_line_loop _ _ _ _ _ _ _ _ _
    | refine only_W_DO _ _ _ _ _ ?_
    | refine only_bind _ _ _ ?_ (fun _ => ?_)
    | split

theorem only_delivery_districts (lo hi : Int) (env : DeliveryEnv) (w_id carrier_id : Int)
    (l : List Int) (hl : ∀ d ∈ l, lo ≤ d ∧ d < hi) :
    OnlyCalls (callInDistricts lo hi) (delivery_districts env w_id carrier_id l) := by
  induction l with
  | nil => exact only_pure _ _
  | cons d rest ih =>
    unfold delivery_districts
    simp only [sm_bind_eq]
    exact only_bind _ _ _ (only_delivery_district lo hi env w_id carrier_id d
      (hl d (List.mem_cons_self _ _)))
      (fun _ => ih (fun x hx => hl x (List.mem_cons_of_mem _ hx)))

theorem int_range_mem (lo hi d : Int) (h : d ∈ int_range lo hi) : lo ≤ d ∧ d < hi := by
  unfold int_range at h
  rw [List.mem_map] at h
  obtain ⟨i, hi1, rfl⟩ := h
  rw [List.mem_range] at hi1
  omega

theorem only_xct_delivery (env : DeliveryEnv) (pdin : delivery_input_t) (xct_id : Int) :
    OnlyCalls (callInDistricts 1 env.DISTRICTS_PER_WAREHOUSE) (xct_delivery env pdin xct_id) := by
  unfold xct_delivery
  simp only [sm_bind_eq]
  repeat' first
    | exact only_pure _ _
    | exact only_stop _ _
    | exact only_assert _ _ _
    | exact only_deref _ _
    | exact only_call _ _ trivial
    | exact only_trt_reset _ _ _
    | exact only_trt_set_state _ _
    | exact only_delivery_districts _ _ _ _ _ _ (fun d hd => int_range_mem _ _ d hd)
    | refine only_W_DO _ _ _ _ _ ?_
    | refine only_bind _ _ _ ?_ (fun _ => ?_)

/-- C20 fails in the code: the loop of `xct_delivery` is
`for (d_id = 1; d_id < DISTRICTS_PER_WAREHOUSE; d_id++)`, so in every run each
new order deleted belongs to a district from 1 to `DISTRICTS_PER_WAREHOUSE -
1`, and district `DISTRICTS_PER_WAREHOUSE` is never processed. With 10
districts per warehouse and two undelivered orders in each district of
warehouse 1, the run returns `RCOK` with state `COMMITTED` after delivering
the least order of the districts 1 to 9 only; both orders of district 10 are
still in `new_order`. -/
theorem C20_last_district_never_processed :
    (∀ (env : DeliveryEnv) (pdin : delivery_input_t) (xct_id : Int) (w : ShoreWorld),
      ∃ evs, (xct_delivery env pdin xct_id w).2.calls = w.calls ++ evs ∧
        ∀ w_id d_id o_id, SmCall.new_order_delete w_id d_id o_id ∈ evs →
          1 ≤ d_id ∧ d_id < env.DISTRICTS_PER_WAREHOUSE) ∧
    (xct_delivery env10 ⟨1, 3⟩ 42 world10).1 = .stop (.returned .RCOK) ∧
    (xct_delivery env10 ⟨1, 3⟩ 42 world10).2.trt = ⟨.COMMITTED, 42⟩ ∧
    deliveredDistricts (xct_delivery env10 ⟨1, 3⟩ 42 world10).2.calls =
      [(1, 21), (2, 22), (3, 23), (4, 24), (5, 25), (6, 26), (7, 27), (8, 28), (9, 29)] ∧
    (xct_delivery env10 ⟨1, 3⟩ 42 world10).2.new_order.filter (fun r => decide (r.2.1 = 10)) =
      [(1, 10, 40), (1, 10, 30)] := by
  refine ⟨?_, by decide!, by decide!, by decide!, by decide!⟩
  intro env pdin xct_id w
  obtain ⟨evs, h1, h2⟩ := only_xct_delivery env pdin xct_id w
  exact ⟨evs, h1, fun w_id d_id o_id h => h2 _ h⟩

end ShoreTPCCEnv

namespace ShoreTPCCEnv

/-! ### The queried factor -/

/-- The run of `set_qf` for an argument in range. -/
theorem set_qf_in (aQF : Int) (s : FactorState) (h : 0 ≤ aQF ∧ aQF ≤ s._scaling_factor) :
    set_qf aQF s =
      { s with
        _queried_factor := aQF,
        ops := s.ops ++ [FactorOp.acquire_queried_mutex, FactorOp.store_queried_factor aQF,
          FactorOp.release_queried_mutex] } := by
  unfold set_qf
  simp [h.1, h.2]

/-- The run of `set_qf` for an argument out of range. -/
theorem set_qf_out (aQF : Int) (s : FactorState) (h : ¬ (0 ≤ aQF ∧ aQF ≤ s._scaling_factor)) :
    set_qf aQF s = s := by
  have h2 : (decide (aQF ≥ 0) && decide (aQF ≤ s._scaling_factor)) = false := by
    simpa using h
  unfold set_qf
  simp only [h2, Bool.false_eq_true, if_false]

/-- One call of `set_qf` leaves the scaling factor as it is and keeps the queried
factor in range. -/
theorem set_qf_keeps (aQF : Int) (s : FactorState) :
    (set_qf aQF s)._scaling_factor = s._scaling_factor ∧
    (queried_in_range s → queried_in_range (set_qf aQF s)) := by
  by_cases h : 0 ≤ aQF ∧ aQF ≤ s._scaling_factor
  · rw [set_qf_in aQF s h]
    exact ⟨rfl, fun _ => h⟩
  · rw [set_qf_out aQF s h]
    exact ⟨rfl, id⟩

/-- Any sequence of calls of `set_qf` leaves the scaling factor as it is and keeps
the queried factor in range. -/
theorem set_qf_calls_keep (args : List Int) :
    ∀ s : FactorState, (set_qf_calls args s)._scaling_factor = s._scaling_factor ∧
      (queried_in_range s → queried_in_range (set_qf_calls args s)) := by
  induction args with
  | nil => exact fun s => ⟨rfl, id⟩
  | cons a rest ih =>
    intro s
    obtain ⟨h1, h2⟩ := set_qf_keeps a s
    obtain ⟨h3, h4⟩ := ih (set_qf a s)
    exact ⟨h3.trans h1, fun h => h4 (h2 h)⟩

/-- C21: when `0 <= aQF <= _scaling_factor`, `set_qf(aQF)` stores `aQF` in the
queried factor, under the mutex `_queried_mutex`, and that store is all it
does; otherwise it does nothing at all, so the queried factor keeps its
value: a store is made if and only if `aQF` is in that range. The scaling
factor is never changed. Consequently `0 <= _queried_factor <=
_scaling_factor` is preserved by every call, and by every sequence of calls. -/
theorem C21_set_qf (s : FactorState) (aQF : Int) :
    (0 ≤ aQF ∧ aQF ≤ s._scaling_factor →
      set_qf aQF s =
        { s with
          _queried_factor := aQF,
          ops := s.ops ++ [FactorOp.acquire_queried_mutex, FactorOp.store_queried_factor aQF,
            FactorOp.release_queried_mutex] }) ∧
    (¬ (0 ≤ aQF ∧ aQF ≤ s._scaling_factor) → set_qf aQF s = s) ∧
    ((∃ v, FactorOp.store_queried_factor v ∈ (set_qf aQF s).ops.drop s.ops.length) ↔
      0 ≤ aQF ∧ aQF ≤ s._scaling_factor) ∧
    (set_qf aQF s)._scaling_factor = s._scaling_factor ∧
    (queried_in_range s → queried_in_range (set_qf aQF s)) ∧
    (∀ args : List Int, queried_in_range s → queried_in_range (set_qf_calls args s)) := by
  have hin := set_qf_in aQF s
  have hout := set_qf_out aQF s
  refine ⟨hin, hout, ?_, (set_qf_keeps aQF s).1, (set_qf_keeps aQF s).2,
    fun args => (set_qf_calls_keep args s).2⟩
  constructor
  · rintro ⟨v, hv⟩
    by_contra hn
    rw [hout hn] at hv
    simp at hv
  · intro h
    rw [hin h]
    exact ⟨aQF, by simp⟩

/-- C21 at concrete calls: with scaling factor 10 and queried factor 3,
`set_qf(7)` stores 7 under the mutex, `set_qf(11)` and `set_qf(-1)` change
nothing, and after the calls with 7, 11, -1, 10 the queried factor is 10, in
range. -/
theorem C21_set_qf_witness :
    set_qf 7 ⟨10, 3, []⟩ =
      ⟨10, 7, [.acquire_queried_mutex, .store_queried_factor 7, .release_queried_mutex]⟩ ∧
    set_qf 11 ⟨10, 3, []⟩ = ⟨10, 3, []⟩ ∧
    set_qf (-1) ⟨10, 3, []⟩ = ⟨10, 3, []⟩ ∧
    queried_in_range (set_qf_calls [7, 11, -1, 10] ⟨10, 3, []⟩) ∧
    (set_qf_calls [7, 11, -1, 10] ⟨10, 3, []⟩)._queried_factor = 10 :=
  ⟨(C21_set_qf ⟨10, 3, []⟩ 7).1 (by decide),
    (C21_set_qf ⟨10, 3, []⟩ 11).2.1 (by decide),
    (C21_set_qf ⟨10, 3, []⟩ (-1)).2.1 (by decide),
    (C21_set_qf ⟨10, 3, []⟩ 0).2.2.2.2.2 [7, 11, -1, 10] (by decide),
    by decide⟩

end ShoreTPCCEnv
